import Mathlib

/-!
Shallow embedding of the binding-and-evaluation runtime of jsonata-go's new
API (jsonata_new.go): immutable compiled expressions, per-goroutine
evaluators, copy-on-write registry merging, and per-evaluation environment
construction with cloning of stateful callables.

Go maps are embedded as association lists with overwrite-on-insert
semantics; reflect.Value is embedded as the inductive RVal; pointer
identity of maps and of goCallable instances is embedded through explicit
addresses drawn from allocation counters in a World record.  The external
collaborators that are not part of the runtime core (the tree evaluator,
the parser) are taken as parameters.
-/

namespace JsonataGo

/-- Embedding of reflect.Value as the runtime sees it.  invalid is the
distinguished no-value marker (IsValid() is false); noInterface is a valid
value whose CanInterface() is false (for example an unexported-field
value); nilPtr is a nil pointer (the explicit null); basic is any other
plain value, identified by an opaque tag; gcall is a pointer to a
goCallable instance: addr is the pointer identity, behavior identifies the
wrapped native function and state its mutable internal data. -/
inductive RVal where
  | invalid : RVal
  | noInterface (tag : Nat) : RVal
  | nilPtr : RVal
  | basic (tag : Nat) : RVal
  | gcall (addr : Nat) (behavior : Nat) (state : Nat) : RVal
deriving DecidableEq, Repr

/-- IsValid of the embedded reflect.Value. -/
def rvalIsValid : RVal → Bool
  | .invalid => false
  | _ => true

/-- CanInterface of the embedded reflect.Value. -/
def rvalCanInterface : RVal → Bool
  | .invalid => false
  | .noInterface _ => false
  | _ => true

/-- Kind() == reflect.Ptr and IsNil() of the embedded reflect.Value. -/
def rvalIsNilPtr : RVal → Bool
  | .nilPtr => true
  | _ => false

/-- Whether the value is a pointer to a goCallable (the type assertion
v.Interface().(*goCallable) succeeds). -/
def rvalIsGcall : RVal → Bool
  | .gcall _ _ _ => true
  | _ => false

/-- Contents of one Go map from identifier names to values, as an
association list; lookups take the first match and inserts overwrite. -/
abbrev RegC := List (String × RVal)

/-- Go map lookup: first matching key. -/
def mapFind (m : RegC) (k : String) : Option RVal :=
  match m with
  | [] => none
  | (k', v) :: rest => if k' = k then some v else mapFind rest k

/-- Go map assignment m[k] = v: replaces the binding of k, or appends. -/
def setEntry (m : RegC) (k : String) (v : RVal) : RegC :=
  match m with
  | [] => [(k, v)]
  | (k', v') :: rest =>
      if k' = k then (k, v) :: rest else (k', v') :: setEntry rest k v

/-- The loop for k, v := range src { dst[k] = v }. -/
def copyInto (dst src : RegC) : RegC :=
  src.foldl (fun m kv => setEntry m kv.1 kv.2) dst

/-- The keys of a map occur at most once (always true of a real Go map). -/
def keysNodup (m : RegC) : Prop := (m.map Prod.fst).Nodup

instance (m : RegC) : Decidable (keysNodup m) := by
  unfold keysNodup; infer_instance

/-- Mutable state of the Go program as the runtime core touches it: a heap
of maps (address to contents) with its allocation counter, an allocation
counter for goCallable instances (cloning a goCallable yields a pointer at
a fresh address), and the reading the system clock would give now. -/
structure World where
  nextMap : Nat
  maps : List (Nat × RegC)
  nextGC : Nat
  clock : Nat
deriving DecidableEq, Repr

/-- Read a map reference: Go nil maps (none) read as empty. -/
def heapRead (w : World) (a : Option Nat) : RegC :=
  match a with
  | none => []
  | some addr =>
      match w.maps.find? (fun p => p.1 = addr) with
      | some p => p.2
      | none => []

/-- make(map[string]reflect.Value): allocate a fresh map with the given
contents; returns the new world and the address. -/
def heapAlloc (w : World) (c : RegC) : World × Nat :=
  ({ w with nextMap := w.nextMap + 1, maps := (w.nextMap, c) :: w.maps },
   w.nextMap)

/-- Overwrite the contents of the map at an address. -/
def heapWrite (w : World) (addr : Nat) (c : RegC) : World :=
  { w with maps := (addr, c) :: w.maps }

/-- Every map address reachable from the program is below the allocation
counter (true of every world reached from a fresh one). -/
def mapsWF (w : World) : Prop := ∀ p ∈ w.maps, p.1 < w.nextMap

instance (w : World) : Decidable (mapsWF w) := by
  unfold mapsWF; infer_instance

/-- Every goCallable address occurring in a map's contents is below the
goCallable allocation counter. -/
def gcBound (n : Nat) (m : RegC) : Prop :=
  (m.all fun kv =>
    match kv.2 with
    | .gcall a _ _ => decide (a < n)
    | _ => true) = true

instance (n : Nat) (m : RegC) : Decidable (gcBound n m) := by
  unfold gcBound; infer_instance

theorem gcBound_find {n : Nat} {m : RegC} (h : gcBound n m) {k : String}
    {a b s : Nat} (hf : mapFind m k = some (RVal.gcall a b s)) : a < n := by
  induction m with
  | nil => simp [mapFind] at hf
  | cons kv rest ih =>
      rw [gcBound, List.all_cons, Bool.and_eq_true] at h
      obtain ⟨h1, h2⟩ := h
      obtain ⟨k', v⟩ := kv
      by_cases hk : k' = k
      · simp [mapFind, hk] at hf
        subst hf
        simpa using h1
      · simp [mapFind, hk] at hf
        exact ih h2 hf

/-- Errors of registry composition. -/
inductive PErr where
  | validation (name : String) : PErr
  | signature (name : String) : PErr
deriving DecidableEq, Repr

/-- A name is a legal identifier: letters, digits, underscore. -/
def isIdentChar (c : Char) : Bool := c.isAlphanum || c = '_'

/-- Legality check for a registered name. -/
def legalName (s : String) : Bool := s.data.all isIdentChar

/-- An extension descriptor: the wrapped native function (identified by an
opaque behavior tag) and the verdict of signature validation on its
parameter and return shapes (callable wrapping is an external collaborator;
only its accept/reject verdict matters here). -/
structure Extension where
  fnBehavior : Nat
  okSig : Bool
deriving DecidableEq, Repr

/-- Modelled from the spec: processVars validates that every name in the
vars mapping is a legal identifier, failing with a validation error naming
the offending key; this walks the mapping and reports the first offender. -/
def validateVars (vars : List (String × RVal)) : Option PErr :=
  match vars with
  | [] => none
  | (k, _) :: rest =>
      if legalName k then validateVars rest else some (.validation k)

/-- Modelled from the spec: processVars (not under src/) turns a
caller-supplied vars mapping into environment-bindable values, validating
every name and failing with a validation error otherwise; values pass
through unchanged. -/
def processVars (vars : List (String × RVal)) : Except PErr RegC :=
  match validateVars vars with
  | some e => .error e
  | none => .ok (vars.foldl (fun m kv => setEntry m kv.1 kv.2) [])

/-- Modelled from the spec: extension registration validates the name is a
legal identifier (validation error) and the function signature is a
supported shape (signature error), reporting the first offender. -/
def validateExts (exts : List (String × Extension)) : Option PErr :=
  match exts with
  | [] => none
  | (k, ext) :: rest =>
      if ¬ legalName k then some (.validation k)
      else if ¬ ext.okSig then some (.signature k)
      else validateExts rest

/-- One conversion step of processExts: wrap one native function into a
goCallable allocated at the next fresh address. -/
def extStep (p : World × RegC) (kv : String × Extension) : World × RegC :=
  ({ p.1 with nextGC := p.1.nextGC + 1 },
   setEntry p.2 kv.1 (RVal.gcall p.1.nextGC kv.2.fnBehavior 0))

/-- Modelled from the spec: processExts (not under src/) validates every
entry of the extensions mapping and, on success, wraps each native
function into a freshly allocated goCallable instance. -/
def processExts (w : World) (exts : List (String × Extension)) :
    World × Except PErr RegC :=
  match validateExts exts with
  | some e => (w, .error e)
  | none =>
      let p := exts.foldl extStep (w, [])
      (p.1, .ok p.2)

/-- Opaque handle to the parsed expression tree, produced once by the
external parser and never mutated. -/
structure Node where
  id : Nat
deriving DecidableEq, Repr

/-- CompiledExpression: an immutable pairing of the parsed tree with a
base registry reference (none embeds Go's nil map, as CompileExpression
produces). -/
structure CompiledExpression where
  node : Node
  baseRegistry : Option Nat
deriving DecidableEq, Repr

/-- CompileExpression: parse (external collaborator, passed as a
function) and pair the tree with no base registry. -/
def CompileExpression (parse : String → Except String Node) (expr : String) :
    Except String CompiledExpression :=
  match parse expr with
  | .error e => .error e
  | .ok node => .ok ⟨node, none⟩

/-- WithExts from jsonata_new.go: process the extensions, then build a new
map holding the old base registry's entries overwritten by the processed
values, and return a new CompiledExpression over the same tree; the
receiver is untouched. -/
def CompiledExpression.WithExts (w : World) (c : CompiledExpression)
    (exts : List (String × Extension)) :
    World × Except PErr CompiledExpression :=
  match processExts w exts with
  | (w1, .error e) => (w1, .error e)
  | (w1, .ok values) =>
      let old := heapRead w1 c.baseRegistry
      let newm := copyInto (copyInto [] old) values
      let q := heapAlloc w1 newm
      (q.1, .ok ⟨c.node, some q.2⟩)

/-- WithVars from jsonata_new.go: process the variables, then build a new
map holding the old base registry's entries overwritten by the processed
values, and return a new CompiledExpression over the same tree; the
receiver is untouched. -/
def CompiledExpression.WithVars (w : World) (c : CompiledExpression)
    (vars : List (String × RVal)) :
    World × Except PErr CompiledExpression :=
  match processVars vars with
  | .error e => (w, .error e)
  | .ok values =>
      let old := heapRead w c.baseRegistry
      let newm := copyInto (copyInto [] old) values
      let q := heapAlloc w newm
      (q.1, .ok ⟨c.node, some q.2⟩)

/-- Evaluator: the compiled expression it executes and the address of its
mutable per-evaluator override map (extras). -/
structure Evaluator where
  expression : CompiledExpression
  extras : Nat
deriving DecidableEq, Repr

/-- NewEvaluator from jsonata_new.go: allocate an empty extras map. -/
def CompiledExpression.NewEvaluator (w : World) (c : CompiledExpression) :
    World × Evaluator :=
  let q := heapAlloc w []
  (q.1, ⟨c, q.2⟩)

/-- The loop for k, v := range values { e.extras[k] = v }. -/
def registerLoop (w : World) (addr : Nat) (values : RegC) : World :=
  values.foldl
    (fun w kv => heapWrite w addr (setEntry (heapRead w (some addr)) kv.1 kv.2))
    w

/-- RegisterExts from jsonata_new.go: process the extensions and, on
success, write each value into the evaluator's extras map; on failure
return the error with nothing written. -/
def Evaluator.RegisterExts (w : World) (e : Evaluator)
    (exts : List (String × Extension)) : World × Option PErr :=
  match processExts w exts with
  | (w1, .error err) => (w1, some err)
  | (w1, .ok values) => (registerLoop w1 e.extras values, none)

/-- RegisterVars from jsonata_new.go: process the variables and, on
success, write each value into the evaluator's extras map; on failure
return the error with nothing written. -/
def Evaluator.RegisterVars (w : World) (e : Evaluator)
    (vars : List (String × RVal)) : World × Option PErr :=
  match processVars vars with
  | .error err => (w, some err)
  | .ok values => (registerLoop w e.extras values, none)

/-- Modelled from the spec: the environment (not under src/) is a chained
symbol table; a lookup in a child falls back to its parent when the name
is absent locally.  The root holds the process-wide built-in registry. -/
inductive environment where
  | root (symbols : RegC) : environment
  | child (symbols : RegC) (parent : environment) : environment
deriving DecidableEq, Repr

/-- Modelled from the spec: env.bind adds a single binding to the
environment's own symbol table. -/
def environment.bind : environment → String → RVal → environment
  | .root s, k, v => .root (setEntry s k v)
  | .child s p, k, v => .child (setEntry s k v) p

/-- Modelled from the spec: env.bindAll adds every entry of a map to the
environment's own symbol table. -/
def environment.bindAll (e : environment) (m : RegC) : environment :=
  m.foldl (fun e kv => e.bind kv.1 kv.2) e

/-- Modelled from the spec: newEnvironment(parent, size) creates a child
environment with empty local symbols over the given parent (the size hint
has no observable effect). -/
def newEnvironment (parent : environment) : environment :=
  environment.child [] parent

/-- Modelled from the spec: name lookup walks from the innermost symbol
table outward to the root, returning the first match. -/
def environment.lookup : environment → String → Option RVal
  | .root s, k => mapFind s k
  | .child s p, k =>
      match mapFind s k with
      | some v => some v
      | none => p.lookup k

/-- Behavior tag of the goCallable behind the now built-in. -/
def timeNowBehavior : Nat := 0

/-- Behavior tag of the goCallable behind the millis built-in. -/
def timeMillisBehavior : Nat := 1

/-- Modelled from the spec: timeCallables(t) (not under src/) builds the
time-sensitive built-ins now and millis as freshly allocated goCallables
whose internal state is the snapshot t taken once at the start of the
evaluation. -/
def timeCallables (w : World) (t : Nat) : World × RegC :=
  ({ w with nextGC := w.nextGC + 2 },
   [("now", RVal.gcall w.nextGC timeNowBehavior t),
    ("millis", RVal.gcall (w.nextGC + 1) timeMillisBehavior t)])

/-- Modelled from the spec: invoking a time-sensitive callable returns its
captured snapshot; the clock reading at the moment of the call is ignored,
which is exactly the determinism-within-evaluation guarantee. -/
def invokeTimeCallable (v : RVal) (_clockAtCall : Nat) : Option Nat :=
  match v with
  | .gcall _ b s =>
      if b = timeNowBehavior ∨ b = timeMillisBehavior then some s else none
  | _ => none

/-- gc.clone() followed by env.bind: a goCallable value is bound as a
freshly allocated behaviorally-identical copy; any other value is bound
by shared reference (jsonata_new.go lines 170-189). -/
def bindWithClone (w : World) (env : environment) (name : String) (v : RVal) :
    World × environment :=
  match v with
  | .gcall _ b s =>
      ({ w with nextGC := w.nextGC + 1 },
       env.bind name (RVal.gcall w.nextGC b s))
  | _ => (w, env.bind name v)

/-- The loop binding a whole registry with cloning of goCallables. -/
def bindAllWithClone (w : World) (env : environment) (m : RegC) :
    World × environment :=
  m.foldl (fun p kv => bindWithClone p.1 p.2 kv.1 kv.2) (w, env)

/-- One iteration of the root-clone loop of jsonata_new.go lines 159-167:
a goCallable is rebound as a fresh clone, anything else is skipped. -/
def rootCloneStep (p : World × environment) (kv : String × RVal) :
    World × environment :=
  match kv.2 with
  | .gcall _ b s =>
      ({ p.1 with nextGC := p.1.nextGC + 1 },
       p.2.bind kv.1 (RVal.gcall p.1.nextGC b s))
  | _ => p

/-- The loop of jsonata_new.go lines 159-167: walk the root built-in
symbols and rebind only the goCallables, each as a fresh clone; plain
values are left to resolve through the parent chain. -/
def bindRootClones (w : World) (env : environment) (syms : RegC) :
    World × environment :=
  syms.foldl rootCloneStep (w, env)

/-- newEnv from jsonata_new.go: take the time snapshot, create a child
environment over the root built-ins, bind the dollar input, bind the time
callables, clone the root goCallables, then bind the base registry and
the evaluator extras (cloning goCallables).  baseSym stands for
baseEnv.symbols, the process-wide built-in registry (an external
collaborator). -/
def Evaluator.newEnv (w : World) (baseSym : RegC) (e : Evaluator)
    (input : RVal) : World × environment :=
  let p1 := timeCallables w w.clock
  let env0 := newEnvironment (environment.root baseSym)
  let env1 := env0.bind "$" input
  let env2 := env1.bindAll p1.2
  let p2 := bindRootClones p1.1 env2 baseSym
  let p3 := bindAllWithClone p2.1 p2.2 (heapRead p2.1 e.expression.baseRegistry)
  let p4 := bindAllWithClone p3.1 p3.2 (heapRead p3.1 (some e.extras))
  p4

/-- Errors Eval can surface. -/
inductive EvalError where
  | undefinedErr : EvalError
  | treeErr (code : Nat) : EvalError
deriving DecidableEq, Repr

/-- ErrUndefined: evaluation legitimately produced no value. -/
def ErrUndefined : EvalError := EvalError.undefinedErr

/-- Eval from jsonata_new.go: build the per-evaluation environment, run
the external tree evaluator, then normalize its result: a tree error
propagates; an invalid result surfaces ErrUndefined; a result whose
CanInterface is false returns nil with the (nil) error; a nil pointer
returns nil with nil error; otherwise the concrete value is returned.
treeEval stands for the external function eval(node, input, env). -/
def Evaluator.Eval (w : World) (baseSym : RegC) (e : Evaluator)
    (treeEval : Node → RVal → environment → Except Nat RVal)
    (data : RVal) : World × (Option RVal × Option EvalError) :=
  let p := e.newEnv w baseSym data
  match treeEval e.expression.node data p.2 with
  | .error code => (p.1, (none, some (.treeErr code)))
  | .ok result =>
      if rvalIsValid result = false then (p.1, (none, some ErrUndefined))
      else if rvalCanInterface result = false then (p.1, (none, none))
      else if rvalIsNilPtr result = true then (p.1, (none, none))
      else (p.1, (some result, none))

/-! Basic lemmas about the map and environment embedding. -/

theorem mapFind_setEntry (m : RegC) (k : String) (v : RVal) (k2 : String) :
    mapFind (setEntry m k v) k2 = if k = k2 then some v else mapFind m k2 := by
  induction m with
  | nil =>
      by_cases h : k = k2 <;> simp [setEntry, mapFind, h]
  | cons kv rest ih =>
      obtain ⟨k', v'⟩ := kv
      by_cases h1 : k' = k
      · subst h1
        by_cases h2 : k' = k2 <;> simp [setEntry, mapFind, h2]
      · by_cases h2 : k' = k2
        · subst h2
          have hkk : ¬ k = k' := fun h => h1 h.symm
          simp [setEntry, mapFind, h1, hkk]
        · simp [setEntry, mapFind, h1, h2, ih]

theorem mapFind_none_of_not_mem {m : RegC} {k : String}
    (h : k ∉ m.map Prod.fst) : mapFind m k = none := by
  induction m with
  | nil => rfl
  | cons kv rest ih =>
      simp only [List.map_cons, List.mem_cons] at h
      push_neg at h
      have hne : ¬ kv.1 = k := fun he => h.1 he.symm
      obtain ⟨k', v'⟩ := kv
      simpa [mapFind, hne] using ih h.2

theorem keysNodup_cons {k : String} {v : RVal} {rest : RegC}
    (h : keysNodup ((k, v) :: rest)) :
    k ∉ rest.map Prod.fst ∧ keysNodup rest := by
  unfold keysNodup at h ⊢
  simp only [List.map_cons, List.nodup_cons] at h
  exact h

theorem mem_keys_setEntry {m : RegC} {k : String} {v : RVal} {x : String} :
    x ∈ (setEntry m k v).map Prod.fst ↔ x ∈ m.map Prod.fst ∨ x = k := by
  induction m with
  | nil => simp [setEntry]
  | cons kv rest ih =>
      obtain ⟨k', v'⟩ := kv
      by_cases h1 : k' = k
      · subst h1
        simp only [setEntry, if_pos rfl, if_true, List.map_cons,
          List.mem_cons, eq_self_iff_true]
        tauto
      · simp only [setEntry, if_neg h1, List.map_cons, List.mem_cons, ih]
        tauto

theorem keysNodup_setEntry {m : RegC} (k : String) (v : RVal)
    (h : keysNodup m) : keysNodup (setEntry m k v) := by
  induction m with
  | nil => simp [setEntry, keysNodup]
  | cons kv rest ih =>
      obtain ⟨k', v'⟩ := kv
      obtain ⟨hni, hnd⟩ := keysNodup_cons h
      by_cases h1 : k' = k
      · subst h1
        unfold keysNodup
        simp only [setEntry, if_pos rfl, if_true, List.map_cons,
          List.nodup_cons, eq_self_iff_true]
        exact ⟨hni, hnd⟩
      · unfold keysNodup
        simp only [setEntry, if_neg h1, List.map_cons, List.nodup_cons]
        refine ⟨?_, ih hnd⟩
        intro hmem
        rcases mem_keys_setEntry.mp hmem with hr | he
        · exact hni hr
        · exact h1 he

theorem copyInto_cons (dst : RegC) (k : String) (v : RVal) (rest : RegC) :
    copyInto dst ((k, v) :: rest) = copyInto (setEntry dst k v) rest := rfl

theorem keysNodup_copyInto (src : RegC) :
    ∀ dst : RegC, keysNodup dst → keysNodup (copyInto dst src) := by
  induction src with
  | nil => intro dst h; exact h
  | cons kv rest ih =>
      intro dst h
      obtain ⟨k, v⟩ := kv
      rw [copyInto_cons]
      exact ih _ (keysNodup_setEntry k v h)

theorem mapFind_copyInto_none (src : RegC) :
    ∀ (dst : RegC) (k : String), mapFind src k = none →
      mapFind (copyInto dst src) k = mapFind dst k := by
  induction src with
  | nil => intro dst k _; rfl
  | cons kv rest ih =>
      intro dst k h
      obtain ⟨k0, v0⟩ := kv
      by_cases h0 : k0 = k
      · simp [mapFind, h0] at h
      · simp only [mapFind, if_neg h0] at h
        rw [copyInto_cons, ih _ _ h, mapFind_setEntry, if_neg h0]

theorem mapFind_copyInto_found (src : RegC) :
    ∀ (dst : RegC) (k : String) (v : RVal), keysNodup src →
      mapFind src k = some v → mapFind (copyInto dst src) k = some v := by
  induction src with
  | nil => intro dst k v _ h; simp [mapFind] at h
  | cons kv rest ih =>
      intro dst k v hnd h
      obtain ⟨k0, v0⟩ := kv
      obtain ⟨hni, hnd'⟩ := keysNodup_cons hnd
      by_cases h0 : k0 = k
      · subst h0
        simp only [mapFind, if_true, eq_self_iff_true] at h
        have hrest : mapFind rest k0 = none := mapFind_none_of_not_mem hni
        rw [copyInto_cons, mapFind_copyInto_none rest _ _ hrest,
          mapFind_setEntry, if_pos rfl, h]
      · simp only [mapFind, if_neg h0] at h
        rw [copyInto_cons]
        exact ih _ _ _ hnd' h

theorem processVars_values {vars : List (String × RVal)} {values : RegC}
    (h : processVars vars = .ok values) : values = copyInto [] vars := by
  unfold processVars at h
  cases hv : validateVars vars with
  | none => rw [hv] at h; cases h; rfl
  | some e => rw [hv] at h; cases h

theorem keysNodup_processVars {vars : List (String × RVal)} {values : RegC}
    (h : processVars vars = .ok values) : keysNodup values := by
  rw [processVars_values h]
  exact keysNodup_copyInto vars [] (by simp [keysNodup])

/-! Heap lemmas. -/

theorem heapRead_heapAlloc_same (w : World) (c : RegC) :
    heapRead (heapAlloc w c).1 (some (heapAlloc w c).2) = c := by
  simp [heapRead, heapAlloc, List.find?]

theorem heapRead_heapAlloc_other (w : World) (c : RegC) {a : Nat}
    (h : a ≠ w.nextMap) : heapRead (heapAlloc w c).1 (some a) =
      heapRead w (some a) := by
  simp only [heapRead, heapAlloc, List.find?]
  have : (decide (w.nextMap = a)) = false := by
    simp [decide_eq_false_iff_not]
    exact fun he => h he.symm
  rw [this]

theorem heapRead_heapAlloc_opt (w : World) (c : RegC) {a : Option Nat}
    (h : ∀ x, a = some x → x < w.nextMap) :
    heapRead (heapAlloc w c).1 a = heapRead w a := by
  cases a with
  | none => rfl
  | some x =>
      exact heapRead_heapAlloc_other w c (Nat.ne_of_lt (h x rfl))

/-! Environment lookup lemmas. -/

theorem environment.bind_lookup (env : environment) (k0 : String) (v0 : RVal)
    (k : String) :
    (env.bind k0 v0).lookup k = if k0 = k then some v0 else env.lookup k := by
  cases env with
  | root s =>
      simp only [environment.bind, environment.lookup, mapFind_setEntry]
  | child s p =>
      by_cases h : k0 = k
      · simp only [environment.bind, environment.lookup, mapFind_setEntry,
          if_pos h]
      · simp only [environment.bind, environment.lookup, mapFind_setEntry,
          if_neg h]

/-! Lemmas about the binding loops of newEnv. -/

/-- World evolution during environment construction: the map heap and the
clock are untouched; only the goCallable allocation counter grows. -/
def stepsGC (w w' : World) : Prop :=
  w'.nextMap = w.nextMap ∧ w'.maps = w.maps ∧ w'.clock = w.clock ∧
    w.nextGC ≤ w'.nextGC

theorem stepsGC_refl (w : World) : stepsGC w w :=
  ⟨rfl, rfl, rfl, Nat.le_refl _⟩

theorem stepsGC_trans {w1 w2 w3 : World} (h1 : stepsGC w1 w2)
    (h2 : stepsGC w2 w3) : stepsGC w1 w3 :=
  ⟨h2.1.trans h1.1, h2.2.1.trans h1.2.1, h2.2.2.1.trans h1.2.2.1,
    h1.2.2.2.trans h2.2.2.2⟩

theorem bindWithClone_stepsGC (w : World) (env : environment) (k : String)
    (v : RVal) : stepsGC w (bindWithClone w env k v).1 := by
  cases v <;> simp [bindWithClone, stepsGC]

theorem rootCloneStep_stepsGC (p : World × environment) (kv : String × RVal) :
    stepsGC p.1 (rootCloneStep p kv).1 := by
  obtain ⟨k, v⟩ := kv
  cases v <;> simp [rootCloneStep, stepsGC]

theorem bindAllWithClone_cons (w : World) (env : environment) (k : String)
    (v : RVal) (rest : RegC) :
    bindAllWithClone w env ((k, v) :: rest) =
      bindAllWithClone (bindWithClone w env k v).1
        (bindWithClone w env k v).2 rest := rfl

theorem bindAllWithClone_stepsGC (m : RegC) :
    ∀ (w : World) (env : environment),
      stepsGC w (bindAllWithClone w env m).1 := by
  induction m with
  | nil => intro w env; exact stepsGC_refl w
  | cons kv rest ih =>
      intro w env
      obtain ⟨k, v⟩ := kv
      rw [bindAllWithClone_cons]
      exact stepsGC_trans (bindWithClone_stepsGC w env k v) (ih _ _)

theorem bindRootClones_cons (w : World) (env : environment)
    (kv : String × RVal) (rest : RegC) :
    bindRootClones w env (kv :: rest) =
      bindRootClones (rootCloneStep (w, env) kv).1
        (rootCloneStep (w, env) kv).2 rest := rfl

theorem bindRootClones_stepsGC (syms : RegC) :
    ∀ (w : World) (env : environment),
      stepsGC w (bindRootClones w env syms).1 := by
  induction syms with
  | nil => intro w env; exact stepsGC_refl w
  | cons kv rest ih =>
      intro w env
      rw [bindRootClones_cons]
      exact stepsGC_trans (rootCloneStep_stepsGC (w, env) kv) (ih _ _)

/-- How one registry entry relates to the value newEnv binds for it: a
goCallable is bound as a clone at a fresh address in the allocation window
of the construction; every other value is bound by shared reference. -/
def bindsAs (lo hi : Nat) (v v' : RVal) : Prop :=
  match v with
  | .gcall _ b s => ∃ a', v' = RVal.gcall a' b s ∧ lo ≤ a' ∧ a' < hi
  | _ => v' = v

theorem bindsAs_mono {lo lo' hi hi' : Nat} {v v' : RVal}
    (hlo : lo' ≤ lo) (hhi : hi ≤ hi') (h : bindsAs lo hi v v') :
    bindsAs lo' hi' v v' := by
  cases v with
  | gcall a b s =>
      obtain ⟨a', he, h1, h2⟩ := h
      exact ⟨a', he, hlo.trans h1, h2.trans_le hhi⟩
  | invalid => exact h
  | noInterface t => exact h
  | nilPtr => exact h
  | basic t => exact h

theorem bindAllWithClone_lookup_none (m : RegC) :
    ∀ (w : World) (env : environment) (k : String), mapFind m k = none →
      (bindAllWithClone w env m).2.lookup k = env.lookup k := by
  induction m with
  | nil => intro w env k _; rfl
  | cons kv rest ih =>
      intro w env k h
      obtain ⟨k0, v0⟩ := kv
      by_cases h0 : k0 = k
      · simp [mapFind, h0] at h
      · simp only [mapFind, if_neg h0] at h
        rw [bindAllWithClone_cons, ih _ _ _ h]
        cases v0 <;>
          simp [bindWithClone, environment.bind_lookup, if_neg h0]

theorem bindAllWithClone_lookup_found (m : RegC) :
    ∀ (w : World) (env : environment) (k : String) (v : RVal),
      keysNodup m → mapFind m k = some v →
      ∃ v', (bindAllWithClone w env m).2.lookup k = some v' ∧
        bindsAs w.nextGC (bindAllWithClone w env m).1.nextGC v v' := by
  induction m with
  | nil => intro w env k v _ h; simp [mapFind] at h
  | cons kv rest ih =>
      intro w env k v hnd h
      obtain ⟨k0, v0⟩ := kv
      obtain ⟨hni, hnd'⟩ := keysNodup_cons hnd
      by_cases h0 : k0 = k
      · subst h0
        simp only [mapFind, if_true, eq_self_iff_true] at h
        have hrest : mapFind rest k0 = none := mapFind_none_of_not_mem hni
        rw [bindAllWithClone_cons]
        rw [bindAllWithClone_lookup_none rest _ _ _ hrest]
        have hgrow := bindAllWithClone_stepsGC rest
          (bindWithClone w env k0 v0).1 (bindWithClone w env k0 v0).2
        cases v0 with
        | gcall a b s =>
            refine ⟨RVal.gcall w.nextGC b s, ?_, ?_⟩
            · simp [bindWithClone, environment.bind_lookup]
            · cases h
              refine ⟨w.nextGC, rfl, Nat.le_refl _, ?_⟩
              have h1 : (bindWithClone w env k0 (RVal.gcall a b s)).1.nextGC =
                  w.nextGC + 1 := by simp [bindWithClone]
              have := hgrow.2.2.2
              omega
        | invalid =>
            cases h
            exact ⟨RVal.invalid, by simp [bindWithClone,
              environment.bind_lookup], rfl⟩
        | noInterface t =>
            cases h
            exact ⟨RVal.noInterface t, by simp [bindWithClone,
              environment.bind_lookup], rfl⟩
        | nilPtr =>
            cases h
            exact ⟨RVal.nilPtr, by simp [bindWithClone,
              environment.bind_lookup], rfl⟩
        | basic t =>
            cases h
            exact ⟨RVal.basic t, by simp [bindWithClone,
              environment.bind_lookup], rfl⟩
      · simp only [mapFind, if_neg h0] at h
        rw [bindAllWithClone_cons]
        obtain ⟨v', hl, hb⟩ := ih (bindWithClone w env k0 v0).1
          (bindWithClone w env k0 v0).2 k v hnd' h
        refine ⟨v', hl, bindsAs_mono ?_ (Nat.le_refl _) hb⟩
        exact (bindWithClone_stepsGC w env k0 v0).2.2.2

theorem bindRootClones_lookup_none (syms : RegC) :
    ∀ (w : World) (env : environment) (k : String), mapFind syms k = none →
      (bindRootClones w env syms).2.lookup k = env.lookup k := by
  induction syms with
  | nil => intro w env k _; rfl
  | cons kv rest ih =>
      intro w env k h
      obtain ⟨k0, v0⟩ := kv
      by_cases h0 : k0 = k
      · simp [mapFind, h0] at h
      · simp only [mapFind, if_neg h0] at h
        rw [bindRootClones_cons, ih _ _ _ h]
        cases v0 <;>
          simp [rootCloneStep, environment.bind_lookup, if_neg h0]

theorem bindRootClones_lookup_nonGcall (syms : RegC) :
    ∀ (w : World) (env : environment) (k : String) (v : RVal),
      keysNodup syms → mapFind syms k = some v → rvalIsGcall v = false →
      (bindRootClones w env syms).2.lookup k = env.lookup k := by
  induction syms with
  | nil => intro w env k v _ h _; simp [mapFind] at h
  | cons kv rest ih =>
      intro w env k v hnd h hng
      obtain ⟨k0, v0⟩ := kv
      obtain ⟨hni, hnd'⟩ := keysNodup_cons hnd
      by_cases h0 : k0 = k
      · subst h0
        simp only [mapFind, if_true, eq_self_iff_true] at h
        cases h
        have hrest : mapFind rest k0 = none := mapFind_none_of_not_mem hni
        rw [bindRootClones_cons, bindRootClones_lookup_none rest _ _ _ hrest]
        cases v <;> simp_all [rootCloneStep, rvalIsGcall]
      · simp only [mapFind, if_neg h0] at h
        rw [bindRootClones_cons, ih _ _ _ _ hnd' h hng]
        cases v0 <;>
          simp [rootCloneStep, environment.bind_lookup, if_neg h0]

theorem bindRootClones_lookup_gcall (syms : RegC) :
    ∀ (w : World) (env : environment) (k : String) (a b s : Nat),
      keysNodup syms → mapFind syms k = some (RVal.gcall a b s) →
      ∃ a', (bindRootClones w env syms).2.lookup k =
          some (RVal.gcall a' b s) ∧
        w.nextGC ≤ a' ∧ a' < (bindRootClones w env syms).1.nextGC := by
  induction syms with
  | nil => intro w env k a b s _ h; simp [mapFind] at h
  | cons kv rest ih =>
      intro w env k a b s hnd h
      obtain ⟨k0, v0⟩ := kv
      obtain ⟨hni, hnd'⟩ := keysNodup_cons hnd
      by_cases h0 : k0 = k
      · subst h0
        simp only [mapFind, if_true, eq_self_iff_true] at h
        cases h
        have hrest : mapFind rest k0 = none := mapFind_none_of_not_mem hni
        rw [bindRootClones_cons, bindRootClones_lookup_none rest _ _ _ hrest]
        refine ⟨w.nextGC, ?_, Nat.le_refl _, ?_⟩
        · simp [rootCloneStep, environment.bind_lookup]
        · have hgrow := bindRootClones_stepsGC rest
            (rootCloneStep (w, env) (k0, RVal.gcall a b s)).1
            (rootCloneStep (w, env) (k0, RVal.gcall a b s)).2
          have h1 : (rootCloneStep (w, env) (k0, RVal.gcall a b s)).1.nextGC =
              w.nextGC + 1 := by simp [rootCloneStep]
          have := hgrow.2.2.2
          omega
      · simp only [mapFind, if_neg h0] at h
        rw [bindRootClones_cons]
        obtain ⟨a', hl, h1, h2⟩ := ih
          (rootCloneStep (w, env) (k0, v0)).1
          (rootCloneStep (w, env) (k0, v0)).2 k a b s hnd' h
        refine ⟨a', hl, ?_, h2⟩
        exact (rootCloneStep_stepsGC (w, env) (k0, v0)).2.2.2.trans h1

/-! Decomposition of newEnv into its stages, for reasoning. -/

/-- Stage 1 of newEnv: time snapshot taken, child environment created,
dollar input and time callables bound. -/
def newEnvStage1 (w : World) (baseSym : RegC) (input : RVal) :
    World × environment :=
  let p1 := timeCallables w w.clock
  (p1.1, ((newEnvironment (environment.root baseSym)).bind "$" input).bindAll
    p1.2)

/-- Stage 2 of newEnv: root built-in goCallables cloned in. -/
def newEnvStage2 (w : World) (baseSym : RegC) (input : RVal) :
    World × environment :=
  let p1 := newEnvStage1 w baseSym input
  bindRootClones p1.1 p1.2 baseSym

/-- Stage 3 of newEnv: the compiled base registry bound with cloning. -/
def newEnvStage3 (w : World) (baseSym : RegC) (e : Evaluator)
    (input : RVal) : World × environment :=
  let p2 := newEnvStage2 w baseSym input
  bindAllWithClone p2.1 p2.2 (heapRead p2.1 e.expression.baseRegistry)

theorem newEnv_eq_stages (w : World) (baseSym : RegC) (e : Evaluator)
    (input : RVal) :
    e.newEnv w baseSym input =
      bindAllWithClone (newEnvStage3 w baseSym e input).1
        (newEnvStage3 w baseSym e input).2
        (heapRead (newEnvStage3 w baseSym e input).1 (some e.extras)) := rfl

theorem heapRead_eq_of_stepsGC {w w' : World} (h : stepsGC w w')
    (a : Option Nat) : heapRead w' a = heapRead w a := by
  cases a with
  | none => rfl
  | some x => simp only [heapRead, h.2.1]

theorem stage1_world (w : World) (baseSym : RegC) (input : RVal) :
    (newEnvStage1 w baseSym input).1 = { w with nextGC := w.nextGC + 2 } :=
  rfl

theorem stage1_stepsGC (w : World) (baseSym : RegC) (input : RVal) :
    stepsGC w (newEnvStage1 w baseSym input).1 :=
  ⟨rfl, rfl, rfl, Nat.le_add_right _ _⟩

theorem stage2_stepsGC (w : World) (baseSym : RegC) (input : RVal) :
    stepsGC w (newEnvStage2 w baseSym input).1 :=
  stepsGC_trans (stage1_stepsGC w baseSym input)
    (bindRootClones_stepsGC baseSym _ _)

theorem stage3_stepsGC (w : World) (baseSym : RegC) (e : Evaluator)
    (input : RVal) : stepsGC w (newEnvStage3 w baseSym e input).1 :=
  stepsGC_trans (stage2_stepsGC w baseSym input)
    (bindAllWithClone_stepsGC _ _ _)

theorem newEnv_stepsGC (w : World) (baseSym : RegC) (e : Evaluator)
    (input : RVal) : stepsGC w (e.newEnv w baseSym input).1 := by
  rw [newEnv_eq_stages]
  exact stepsGC_trans (stage3_stepsGC w baseSym e input)
    (bindAllWithClone_stepsGC _ _ _)

theorem stage1_lookup (w : World) (baseSym : RegC) (input : RVal)
    (k : String) :
    (newEnvStage1 w baseSym input).2.lookup k =
      if k = "millis" then
        some (RVal.gcall (w.nextGC + 1) timeMillisBehavior w.clock)
      else if k = "now" then
        some (RVal.gcall w.nextGC timeNowBehavior w.clock)
      else if k = "$" then some input
      else mapFind baseSym k := by
  show (((newEnvironment (environment.root baseSym)).bind "$" input).bindAll
      [("now", RVal.gcall w.nextGC timeNowBehavior w.clock),
       ("millis", RVal.gcall (w.nextGC + 1) timeMillisBehavior w.clock)]).lookup
      k = _
  simp only [environment.bindAll, List.foldl]
  rw [environment.bind_lookup, environment.bind_lookup,
    environment.bind_lookup]
  by_cases h1 : k = "millis"
  · subst h1; simp
  · have h1' : ¬ ("millis" = k) := fun he => h1 he.symm
    by_cases h2 : k = "now"
    · subst h2; simp [h1']
    · have h2' : ¬ ("now" = k) := fun he => h2 he.symm
      by_cases h3 : k = "$"
      · subst h3; simp [h1', h2']
      · have h3' : ¬ ("$" = k) := fun he => h3 he.symm
        simp only [if_neg h1, if_neg h2, if_neg h3, if_neg h1', if_neg h2',
          if_neg h3']
        rfl

/-! Master lemmas: what a name bound in newEnv's environment resolves to,
depending on which registry layer wins.  Each is proved stage by stage. -/

theorem stage2_lookup_gcall (w : World) (baseSym : RegC) (input : RVal)
    (k : String) (a b s : Nat) (hnd : keysNodup baseSym)
    (hf : mapFind baseSym k = some (RVal.gcall a b s)) :
    ∃ a', (newEnvStage2 w baseSym input).2.lookup k =
        some (RVal.gcall a' b s) ∧
      w.nextGC ≤ a' ∧ a' < (newEnvStage2 w baseSym input).1.nextGC := by
  unfold newEnvStage2
  dsimp only
  obtain ⟨a', hl, h1, h2⟩ := bindRootClones_lookup_gcall baseSym
    (newEnvStage1 w baseSym input).1 (newEnvStage1 w baseSym input).2
    k a b s hnd hf
  exact ⟨a', hl, (stage1_stepsGC w baseSym input).2.2.2.trans h1, h2⟩

theorem stage2_lookup_plain (w : World) (baseSym : RegC) (input : RVal)
    (k : String) (v : RVal) (hnd : keysNodup baseSym)
    (hf : mapFind baseSym k = some v) (hng : rvalIsGcall v = false)
    (hk1 : ¬ k = "$") (hk2 : ¬ k = "now") (hk3 : ¬ k = "millis") :
    (newEnvStage2 w baseSym input).2.lookup k = some v := by
  unfold newEnvStage2
  dsimp only
  rw [bindRootClones_lookup_nonGcall baseSym _ _ _ _ hnd hf hng]
  rw [stage1_lookup, if_neg hk3, if_neg hk2, if_neg hk1, hf]

theorem stage2_lookup_time (w : World) (baseSym : RegC) (input : RVal)
    (k : String) (beh : Nat)
    (hk : (k = "now" ∧ beh = timeNowBehavior) ∨
      (k = "millis" ∧ beh = timeMillisBehavior))
    (hnr : mapFind baseSym k = none) :
    ∃ a, w.nextGC ≤ a ∧ (newEnvStage2 w baseSym input).2.lookup k =
      some (RVal.gcall a beh w.clock) := by
  unfold newEnvStage2
  dsimp only
  rw [bindRootClones_lookup_none baseSym _ _ _ hnr]
  rw [stage1_lookup]
  rcases hk with ⟨hk, hb⟩ | ⟨hk, hb⟩ <;> subst hk <;> subst hb
  · exact ⟨w.nextGC, Nat.le_refl _, by simp⟩
  · exact ⟨w.nextGC + 1, Nat.le_succ_of_le (Nat.le_refl _), by simp⟩

theorem stage3_lookup_base (w : World) (baseSym : RegC) (e : Evaluator)
    (input : RVal) (k : String) (v : RVal)
    (hnd : keysNodup (heapRead w e.expression.baseRegistry))
    (hf : mapFind (heapRead w e.expression.baseRegistry) k = some v) :
    ∃ v', (newEnvStage3 w baseSym e input).2.lookup k = some v' ∧
      bindsAs w.nextGC (newEnvStage3 w baseSym e input).1.nextGC v v' := by
  unfold newEnvStage3
  dsimp only
  rw [heapRead_eq_of_stepsGC (stage2_stepsGC w baseSym input)
    e.expression.baseRegistry]
  obtain ⟨v', hl, hb⟩ := bindAllWithClone_lookup_found _
    (newEnvStage2 w baseSym input).1 (newEnvStage2 w baseSym input).2
    k v hnd hf
  exact ⟨v', hl, bindsAs_mono (stage2_stepsGC w baseSym input).2.2.2
    (Nat.le_refl _) hb⟩

theorem stage3_lookup_root_gcall (w : World) (baseSym : RegC)
    (e : Evaluator) (input : RVal) (k : String) (a b s : Nat)
    (hnb : mapFind (heapRead w e.expression.baseRegistry) k = none)
    (hnd : keysNodup baseSym)
    (hf : mapFind baseSym k = some (RVal.gcall a b s)) :
    ∃ a', (newEnvStage3 w baseSym e input).2.lookup k =
        some (RVal.gcall a' b s) ∧
      w.nextGC ≤ a' ∧ a' < (newEnvStage3 w baseSym e input).1.nextGC := by
  unfold newEnvStage3
  dsimp only
  rw [heapRead_eq_of_stepsGC (stage2_stepsGC w baseSym input)
    e.expression.baseRegistry]
  rw [bindAllWithClone_lookup_none _ _ _ _ hnb]
  obtain ⟨a', hl, h1, h2⟩ := stage2_lookup_gcall w baseSym input k a b s
    hnd hf
  refine ⟨a', hl, h1, Nat.lt_of_lt_of_le h2 ?_⟩
  exact (bindAllWithClone_stepsGC (heapRead w e.expression.baseRegistry)
    (newEnvStage2 w baseSym input).1
    (newEnvStage2 w baseSym input).2).2.2.2

theorem stage3_lookup_root_plain (w : World) (baseSym : RegC)
    (e : Evaluator) (input : RVal) (k : String) (v : RVal)
    (hnb : mapFind (heapRead w e.expression.baseRegistry) k = none)
    (hnd : keysNodup baseSym)
    (hf : mapFind baseSym k = some v) (hng : rvalIsGcall v = false)
    (hk1 : ¬ k = "$") (hk2 : ¬ k = "now") (hk3 : ¬ k = "millis") :
    (newEnvStage3 w baseSym e input).2.lookup k = some v := by
  unfold newEnvStage3
  dsimp only
  rw [heapRead_eq_of_stepsGC (stage2_stepsGC w baseSym input)
    e.expression.baseRegistry]
  rw [bindAllWithClone_lookup_none _ _ _ _ hnb]
  exact stage2_lookup_plain w baseSym input k v hnd hf hng hk1 hk2 hk3

theorem stage3_lookup_time (w : World) (baseSym : RegC) (e : Evaluator)
    (input : RVal) (k : String) (beh : Nat)
    (hk : (k = "now" ∧ beh = timeNowBehavior) ∨
      (k = "millis" ∧ beh = timeMillisBehavior))
    (hnb : mapFind (heapRead w e.expression.baseRegistry) k = none)
    (hnr : mapFind baseSym k = none) :
    ∃ a, w.nextGC ≤ a ∧ (newEnvStage3 w baseSym e input).2.lookup k =
      some (RVal.gcall a beh w.clock) := by
  unfold newEnvStage3
  dsimp only
  rw [heapRead_eq_of_stepsGC (stage2_stepsGC w baseSym input)
    e.expression.baseRegistry]
  rw [bindAllWithClone_lookup_none _ _ _ _ hnb]
  exact stage2_lookup_time w baseSym input k beh hk hnr

theorem newEnv_lookup_extras (w : World) (baseSym : RegC) (e : Evaluator)
    (input : RVal) (k : String) (v : RVal)
    (hnd : keysNodup (heapRead w (some e.extras)))
    (hf : mapFind (heapRead w (some e.extras)) k = some v) :
    ∃ v', (e.newEnv w baseSym input).2.lookup k = some v' ∧
      bindsAs w.nextGC (e.newEnv w baseSym input).1.nextGC v v' := by
  rw [newEnv_eq_stages, heapRead_eq_of_stepsGC
    (stage3_stepsGC w baseSym e input) (some e.extras)]
  obtain ⟨v', hl, hb⟩ := bindAllWithClone_lookup_found _
    (newEnvStage3 w baseSym e input).1 (newEnvStage3 w baseSym e input).2
    k v hnd hf
  exact ⟨v', hl, bindsAs_mono (stage3_stepsGC w baseSym e input).2.2.2
    (Nat.le_refl _) hb⟩

theorem newEnv_lookup_base (w : World) (baseSym : RegC) (e : Evaluator)
    (input : RVal) (k : String) (v : RVal)
    (hne : mapFind (heapRead w (some e.extras)) k = none)
    (hnd : keysNodup (heapRead w e.expression.baseRegistry))
    (hf : mapFind (heapRead w e.expression.baseRegistry) k = some v) :
    ∃ v', (e.newEnv w baseSym input).2.lookup k = some v' ∧
      bindsAs w.nextGC (e.newEnv w baseSym input).1.nextGC v v' := by
  rw [newEnv_eq_stages, heapRead_eq_of_stepsGC
    (stage3_stepsGC w baseSym e input) (some e.extras)]
  rw [bindAllWithClone_lookup_none _ _ _ _ hne]
  obtain ⟨v', hl, hb⟩ := stage3_lookup_base w baseSym e input k v hnd hf
  refine ⟨v', hl, bindsAs_mono (Nat.le_refl _) ?_ hb⟩
  exact (bindAllWithClone_stepsGC (heapRead w (some e.extras))
    (newEnvStage3 w baseSym e input).1
    (newEnvStage3 w baseSym e input).2).2.2.2

theorem newEnv_lookup_root_gcall (w : World) (baseSym : RegC)
    (e : Evaluator) (input : RVal) (k : String) (a b s : Nat)
    (hne : mapFind (heapRead w (some e.extras)) k = none)
    (hnb : mapFind (heapRead w e.expression.baseRegistry) k = none)
    (hnd : keysNodup baseSym)
    (hf : mapFind baseSym k = some (RVal.gcall a b s)) :
    ∃ a', (e.newEnv w baseSym input).2.lookup k =
        some (RVal.gcall a' b s) ∧
      w.nextGC ≤ a' ∧ a' < (e.newEnv w baseSym input).1.nextGC := by
  rw [newEnv_eq_stages, heapRead_eq_of_stepsGC
    (stage3_stepsGC w baseSym e input) (some e.extras)]
  rw [bindAllWithClone_lookup_none _ _ _ _ hne]
  obtain ⟨a', hl, h1, h2⟩ := stage3_lookup_root_gcall w baseSym e input
    k a b s hnb hnd hf
  refine ⟨a', hl, h1, Nat.lt_of_lt_of_le h2 ?_⟩
  exact (bindAllWithClone_stepsGC (heapRead w (some e.extras))
    (newEnvStage3 w baseSym e input).1
    (newEnvStage3 w baseSym e input).2).2.2.2

theorem newEnv_lookup_root_plain (w : World) (baseSym : RegC)
    (e : Evaluator) (input : RVal) (k : String) (v : RVal)
    (hne : mapFind (heapRead w (some e.extras)) k = none)
    (hnb : mapFind (heapRead w e.expression.baseRegistry) k = none)
    (hnd : keysNodup baseSym)
    (hf : mapFind baseSym k = some v) (hng : rvalIsGcall v = false)
    (hk1 : ¬ k = "$") (hk2 : ¬ k = "now") (hk3 : ¬ k = "millis") :
    (e.newEnv w baseSym input).2.lookup k = some v := by
  rw [newEnv_eq_stages, heapRead_eq_of_stepsGC
    (stage3_stepsGC w baseSym e input) (some e.extras)]
  rw [bindAllWithClone_lookup_none _ _ _ _ hne]
  exact stage3_lookup_root_plain w baseSym e input k v hnb hnd hf hng
    hk1 hk2 hk3

theorem newEnv_lookup_time (w : World) (baseSym : RegC) (e : Evaluator)
    (input : RVal) (k : String) (beh : Nat)
    (hk : (k = "now" ∧ beh = timeNowBehavior) ∨
      (k = "millis" ∧ beh = timeMillisBehavior))
    (hne : mapFind (heapRead w (some e.extras)) k = none)
    (hnb : mapFind (heapRead w e.expression.baseRegistry) k = none)
    (hnr : mapFind baseSym k = none) :
    ∃ a, w.nextGC ≤ a ∧ (e.newEnv w baseSym input).2.lookup k =
      some (RVal.gcall a beh w.clock) := by
  rw [newEnv_eq_stages, heapRead_eq_of_stepsGC
    (stage3_stepsGC w baseSym e input) (some e.extras)]
  rw [bindAllWithClone_lookup_none _ _ _ _ hne]
  exact stage3_lookup_time w baseSym e input k beh hk hnb hnr

/-! Lemmas about registry composition and processing. -/

theorem extLoop_stepsGC (exts : List (String × Extension)) :
    ∀ (w : World) (m : RegC), stepsGC w (exts.foldl extStep (w, m)).1 := by
  induction exts with
  | nil => intro w m; exact stepsGC_refl w
  | cons kv rest ih =>
      intro w m
      have h1 : stepsGC w (extStep (w, m) kv).1 :=
        ⟨rfl, rfl, rfl, Nat.le_succ _⟩
      have h2 := ih (extStep (w, m) kv).1 (extStep (w, m) kv).2
      exact stepsGC_trans h1 h2

theorem extLoop_nodup (exts : List (String × Extension)) :
    ∀ (w : World) (m : RegC), keysNodup m →
      keysNodup (exts.foldl extStep (w, m)).2 := by
  induction exts with
  | nil => intro w m h; exact h
  | cons kv rest ih =>
      intro w m h
      exact ih (extStep (w, m) kv).1 (extStep (w, m) kv).2
        (keysNodup_setEntry kv.1 _ h)

theorem processExts_stepsGC (w : World) (exts : List (String × Extension)) :
    stepsGC w (processExts w exts).1 := by
  unfold processExts
  cases validateExts exts with
  | some e => exact stepsGC_refl w
  | none => exact extLoop_stepsGC exts w []

theorem keysNodup_processExts {w w1 : World}
    {exts : List (String × Extension)} {values : RegC}
    (h : processExts w exts = (w1, .ok values)) : keysNodup values := by
  unfold processExts at h
  cases hval : validateExts exts with
  | some e => rw [hval] at h; cases h
  | none =>
      rw [hval] at h
      have := congrArg Prod.snd h
      simp only at this
      cases this
      exact extLoop_nodup exts w [] (by simp [keysNodup])

theorem mapFind_copyInto_nil_eq (src : RegC) (k : String)
    (hnd : keysNodup src) : mapFind (copyInto [] src) k = mapFind src k := by
  cases hm : mapFind src k with
  | none => rw [mapFind_copyInto_none src [] k hm]; rfl
  | some v => exact mapFind_copyInto_found src [] k v hnd hm

theorem validateVars_bad {vars : List (String × RVal)}
    (h : ∃ kv ∈ vars, legalName kv.1 = false) :
    ∃ err, validateVars vars = some err := by
  induction vars with
  | nil => obtain ⟨kv, hm, _⟩ := h; cases hm
  | cons kv rest ih =>
      obtain ⟨kv', hm, hb⟩ := h
      by_cases hl : legalName kv.1 = true
      · have hmr : kv' ∈ rest := by
          cases hm with
          | head => rw [hb] at hl; cases hl
          | tail _ hr => exact hr
        obtain ⟨err, he⟩ := ih ⟨kv', hmr, hb⟩
        exact ⟨err, by
          obtain ⟨k, v⟩ := kv
          simp only [validateVars]
          rw [if_pos hl]
          exact he⟩
      · have hl' : legalName kv.1 = false := by
          cases hq : legalName kv.1
          · rfl
          · exact absurd hq hl
        obtain ⟨k, v⟩ := kv
        refine ⟨.validation k, ?_⟩
        simp only [validateVars]
        rw [if_neg ?_]
        intro hc
        exact hl hc

theorem validateExts_bad {exts : List (String × Extension)}
    (h : ∃ kv ∈ exts, legalName kv.1 = false ∨ kv.2.okSig = false) :
    ∃ err, validateExts exts = some err := by
  induction exts with
  | nil => obtain ⟨kv, hm, _⟩ := h; cases hm
  | cons kv rest ih =>
      obtain ⟨kv', hm, hb⟩ := h
      obtain ⟨k, ext⟩ := kv
      by_cases hl : legalName k = true
      · by_cases hs : ext.okSig = true
        · have hmr : kv' ∈ rest := by
            cases hm with
            | head =>
                rcases hb with hb | hb
                · rw [hb] at hl; cases hl
                · rw [hb] at hs; cases hs
            | tail _ hr => exact hr
          obtain ⟨err, he⟩ := ih ⟨kv', hmr, hb⟩
          refine ⟨err, ?_⟩
          simp only [validateExts]
          rw [if_neg (by simp [hl]), if_neg (by simp [hs])]
          exact he
        · refine ⟨.signature k, ?_⟩
          simp only [validateExts]
          rw [if_neg (by simp [hl]), if_pos (by simpa using hs)]
      · refine ⟨.validation k, ?_⟩
        simp only [validateExts]
        rw [if_pos (by simpa using hl)]

/-- A registry reference is well formed for a world: the address, if any,
was really allocated (is below the allocation counter). -/
def crWF (w : World) (r : Option Nat) : Prop :=
  match r with
  | none => True
  | some a => a < w.nextMap

instance (w : World) (r : Option Nat) : Decidable (crWF w r) := by
  unfold crWF
  cases r <;> infer_instance

theorem crWF_lt {w : World} {r : Option Nat} (h : crWF w r) :
    ∀ a, r = some a → a < w.nextMap := by
  intro a ha
  subst ha
  exact h

/-! Concrete fixtures used by witnesses and counterexamples. -/

/-- A fresh world: nothing allocated, clock at zero. -/
def w0 : World := ⟨0, [], 0, 0⟩

/-- A sample parsed tree handle. -/
def node0 : Node := ⟨0⟩

/-- A compiled expression with a nil base registry, as CompileExpression
makes. -/
def ce0 : CompiledExpression := ⟨node0, none⟩

/-- An evaluator over ce0 whose extras map lives at address 0. -/
def ev0 : Evaluator := ⟨ce0, 0⟩

/-- A tree evaluator that produces a valid non-interfaceable value. -/
def teNoInterface : Node → RVal → environment → Except Nat RVal :=
  fun _ _ _ => .ok (RVal.noInterface 0)

/-- A tree evaluator that produces an explicit null (nil pointer). -/
def teNilPtr : Node → RVal → environment → Except Nat RVal :=
  fun _ _ _ => .ok RVal.nilPtr

/-- A tree evaluator that produces a plain concrete value. -/
def teBasic : Node → RVal → environment → Except Nat RVal :=
  fun _ _ _ => .ok (RVal.basic 7)

/-! Claim C10. -/

/-- C10: when tree evaluation succeeds with a valid result whose
CanInterface is false, Eval returns a nil value together with a nil error
(neither ErrUndefined nor any other error), the same observable outcome as
an explicit null result. -/
theorem C10_noninterfaceable_result_is_nil_nil (w : World) (baseSym : RegC)
    (e : Evaluator) (treeEval : Node → RVal → environment → Except Nat RVal)
    (data : RVal) (r : RVal)
    (hr : treeEval e.expression.node data (e.newEnv w baseSym data).2 =
      .ok r)
    (hv : rvalIsValid r = true) (hc : rvalCanInterface r = false) :
    (Evaluator.Eval w baseSym e treeEval data).2 = (none, none) ∧
    ∀ te2 : Node → RVal → environment → Except Nat RVal,
      te2 e.expression.node data (e.newEnv w baseSym data).2 =
        .ok RVal.nilPtr →
      (Evaluator.Eval w baseSym e te2 data).2 =
        (Evaluator.Eval w baseSym e treeEval data).2 := by
  constructor
  · simp [Evaluator.Eval, hr, hv, hc]
  · intro te2 h2
    have h1 : (Evaluator.Eval w baseSym e treeEval data).2 = (none, none) :=
      by simp [Evaluator.Eval, hr, hv, hc]
    have h3 : (Evaluator.Eval w baseSym e te2 data).2 = (none, none) := by
      simp [Evaluator.Eval, h2, rvalIsValid, rvalCanInterface, rvalIsNilPtr]
    rw [h1, h3]

/-- Witness for C10 at a concrete instance. -/
theorem C10_witness :
    (Evaluator.Eval w0 [] ev0 teNoInterface RVal.nilPtr).2 = (none, none) ∧
    ∀ te2 : Node → RVal → environment → Except Nat RVal,
      te2 ev0.expression.node RVal.nilPtr
          (ev0.newEnv w0 [] RVal.nilPtr).2 = .ok RVal.nilPtr →
      (Evaluator.Eval w0 [] ev0 te2 RVal.nilPtr).2 =
        (Evaluator.Eval w0 [] ev0 teNoInterface RVal.nilPtr).2 :=
  C10_noninterfaceable_result_is_nil_nil w0 [] ev0 teNoInterface
    RVal.nilPtr (RVal.noInterface 0) rfl rfl rfl

/-! Claim C4. -/

/-- C4 counterexample: a successful tree evaluation returning the valid,
non-nil-pointer value noInterface 0 makes Eval return a nil value and nil
error, not the concrete result value as the claim's final clause states. -/
theorem C4_counterexample :
    (Evaluator.Eval w0 [] ev0 teNoInterface RVal.nilPtr).2 =
      (none, none) ∧
    rvalIsValid (RVal.noInterface 0) = true ∧
    rvalIsNilPtr (RVal.noInterface 0) = false ∧
    (Evaluator.Eval w0 [] ev0 teNoInterface RVal.nilPtr).2 ≠
      (some (RVal.noInterface 0), none) := by
  refine ⟨?_, rfl, rfl, ?_⟩
  · simp [Evaluator.Eval, teNoInterface, rvalIsValid, rvalCanInterface]
  · intro h
    simp [Evaluator.Eval, teNoInterface, rvalIsValid, rvalCanInterface]
      at h

/-- C4 (amended): after a successful tree evaluation, an invalid result
surfaces ErrUndefined with a nil value; a valid result that cannot be
interfaced yields a nil value and nil error; a nil-pointer result yields a
nil value and nil error; any other result is returned concretely with a
nil error. -/
theorem C4_result_normalization (w : World) (baseSym : RegC)
    (e : Evaluator) (treeEval : Node → RVal → environment → Except Nat RVal)
    (data : RVal) (r : RVal)
    (hr : treeEval e.expression.node data (e.newEnv w baseSym data).2 =
      .ok r) :
    (rvalIsValid r = false →
      (Evaluator.Eval w baseSym e treeEval data).2 =
        (none, some ErrUndefined)) ∧
    (rvalIsValid r = true → rvalCanInterface r = false →
      (Evaluator.Eval w baseSym e treeEval data).2 = (none, none)) ∧
    (rvalCanInterface r = true → rvalIsNilPtr r = true →
      (Evaluator.Eval w baseSym e treeEval data).2 = (none, none)) ∧
    (rvalCanInterface r = true → rvalIsNilPtr r = false →
      (Evaluator.Eval w baseSym e treeEval data).2 = (some r, none)) := by
  refine ⟨?_, ?_, ?_, ?_⟩
  · intro h1
    simp [Evaluator.Eval, hr, h1]
  · intro h1 h2
    simp [Evaluator.Eval, hr, h1, h2]
  · intro h1 h2
    have hv : rvalIsValid r = true := by
      cases r <;> simp_all [rvalIsValid, rvalCanInterface]
    simp [Evaluator.Eval, hr, hv, h1, h2]
  · intro h1 h2
    have hv : rvalIsValid r = true := by
      cases r <;> simp_all [rvalIsValid, rvalCanInterface]
    simp [Evaluator.Eval, hr, hv, h1, h2]

/-- Witness for C4's amended theorem at a concrete instance. -/
theorem C4_witness :
    (rvalIsValid (RVal.basic 7) = false →
      (Evaluator.Eval w0 [] ev0 teBasic RVal.nilPtr).2 =
        (none, some ErrUndefined)) ∧
    (rvalIsValid (RVal.basic 7) = true →
      rvalCanInterface (RVal.basic 7) = false →
      (Evaluator.Eval w0 [] ev0 teBasic RVal.nilPtr).2 = (none, none)) ∧
    (rvalCanInterface (RVal.basic 7) = true →
      rvalIsNilPtr (RVal.basic 7) = true →
      (Evaluator.Eval w0 [] ev0 teBasic RVal.nilPtr).2 = (none, none)) ∧
    (rvalCanInterface (RVal.basic 7) = true →
      rvalIsNilPtr (RVal.basic 7) = false →
      (Evaluator.Eval w0 [] ev0 teBasic RVal.nilPtr).2 =
        (some (RVal.basic 7), none)) :=
  C4_result_normalization w0 [] ev0 teBasic RVal.nilPtr (RVal.basic 7) rfl

/-! Claim C2. -/

/-- C2: for every CompiledExpression and every vars or exts mapping,
WithVars and WithExts leave the receiver unchanged: the contents of its
base registry map in the heap are the same after the call as before,
whether the call succeeds or fails (the expression tree is an immutable
value the operations never touch). -/
theorem C2_with_ops_leave_receiver_unchanged (w : World)
    (c : CompiledExpression) (vars : List (String × RVal))
    (exts : List (String × Extension)) (hwc : crWF w c.baseRegistry) :
    heapRead (CompiledExpression.WithVars w c vars).1 c.baseRegistry =
      heapRead w c.baseRegistry ∧
    heapRead (CompiledExpression.WithExts w c exts).1 c.baseRegistry =
      heapRead w c.baseRegistry := by
  constructor
  · unfold CompiledExpression.WithVars
    cases hpv : processVars vars with
    | error e => rfl
    | ok values => exact heapRead_heapAlloc_opt w _ (crWF_lt hwc)
  · unfold CompiledExpression.WithExts
    rcases hpe : processExts w exts with ⟨w1, r⟩
    have hst := processExts_stepsGC w exts
    rw [hpe] at hst
    cases r with
    | error e => exact heapRead_eq_of_stepsGC hst c.baseRegistry
    | ok values =>
        show heapRead (heapAlloc w1 _).1 c.baseRegistry = _
        rw [heapRead_heapAlloc_opt w1 _ (fun a ha => by
          rw [hst.1]
          exact crWF_lt hwc a ha)]
        exact heapRead_eq_of_stepsGC hst c.baseRegistry

/-- Witness for C2 at a concrete instance. -/
theorem C2_witness :
    heapRead (CompiledExpression.WithVars ⟨2, [(0, [("a", RVal.basic 1)])], 0, 0⟩
      ⟨⟨0⟩, some 0⟩ [("x", RVal.basic 2)]).1 (some 0) =
      heapRead ⟨2, [(0, [("a", RVal.basic 1)])], 0, 0⟩ (some 0) ∧
    heapRead (CompiledExpression.WithExts ⟨2, [(0, [("a", RVal.basic 1)])], 0, 0⟩
      ⟨⟨0⟩, some 0⟩ [("f", ⟨5, true⟩)]).1 (some 0) =
      heapRead ⟨2, [(0, [("a", RVal.basic 1)])], 0, 0⟩ (some 0) :=
  C2_with_ops_leave_receiver_unchanged ⟨2, [(0, [("a", RVal.basic 1)])], 0, 0⟩
    ⟨⟨0⟩, some 0⟩ [("x", RVal.basic 2)] [("f", ⟨5, true⟩)] (by decide)

/-! Claim C9. -/

/-- C9: every derived CompiledExpression produced by WithVars or WithExts
holds a newly allocated merged registry, at an address distinct from every
existing map and in particular from the receiver's registry address, while
sharing the identical parsed tree with the receiver (no re-parse). -/
theorem C9_derived_fresh_registry_shared_tree (w : World)
    (c : CompiledExpression) (vars : List (String × RVal))
    (exts : List (String × Extension)) (hmw : mapsWF w)
    (hwc : crWF w c.baseRegistry) :
    (∀ cv, (CompiledExpression.WithVars w c vars).2 = .ok cv →
      cv.node = c.node ∧
      ∃ a', cv.baseRegistry = some a' ∧ (∀ p ∈ w.maps, p.1 ≠ a') ∧
        ∀ a, c.baseRegistry = some a → a' ≠ a) ∧
    (∀ cx, (CompiledExpression.WithExts w c exts).2 = .ok cx →
      cx.node = c.node ∧
      ∃ a', cx.baseRegistry = some a' ∧ (∀ p ∈ w.maps, p.1 ≠ a') ∧
        ∀ a, c.baseRegistry = some a → a' ≠ a) := by
  constructor
  · intro cv hok
    unfold CompiledExpression.WithVars at hok
    cases hpv : processVars vars with
    | error e => rw [hpv] at hok; cases hok
    | ok values =>
        rw [hpv] at hok
        cases hok
        refine ⟨rfl, w.nextMap, rfl, ?_, ?_⟩
        · intro p hp
          exact Nat.ne_of_lt (hmw p hp)
        · intro a ha
          exact (Nat.ne_of_lt (crWF_lt hwc a ha)).symm
  · intro cx hok
    unfold CompiledExpression.WithExts at hok
    rcases hpe : processExts w exts with ⟨w1, r⟩
    have hst := processExts_stepsGC w exts
    rw [hpe] at hst
    rw [hpe] at hok
    cases r with
    | error e => cases hok
    | ok values =>
        cases hok
        refine ⟨rfl, w1.nextMap, rfl, ?_, ?_⟩
        · intro p hp
          rw [hst.1]
          exact Nat.ne_of_lt (hmw p hp)
        · intro a ha
          rw [hst.1]
          exact (Nat.ne_of_lt (crWF_lt hwc a ha)).symm

/-- Witness for C9 at a concrete instance. -/
theorem C9_witness :
    (∀ cv, (CompiledExpression.WithVars
        ⟨2, [(0, [("a", RVal.basic 1)])], 0, 0⟩ ⟨⟨0⟩, some 0⟩
        [("x", RVal.basic 2)]).2 = .ok cv →
      cv.node = CompiledExpression.node ⟨⟨0⟩, some 0⟩ ∧
      ∃ a', cv.baseRegistry = some a' ∧
        (∀ p ∈ World.maps ⟨2, [(0, [("a", RVal.basic 1)])], 0, 0⟩,
          p.1 ≠ a') ∧
        ∀ a, CompiledExpression.baseRegistry ⟨⟨0⟩, some 0⟩ = some a →
          a' ≠ a) ∧
    (∀ cx, (CompiledExpression.WithExts
        ⟨2, [(0, [("a", RVal.basic 1)])], 0, 0⟩ ⟨⟨0⟩, some 0⟩
        [("f", ⟨5, true⟩)]).2 = .ok cx →
      cx.node = CompiledExpression.node ⟨⟨0⟩, some 0⟩ ∧
      ∃ a', cx.baseRegistry = some a' ∧
        (∀ p ∈ World.maps ⟨2, [(0, [("a", RVal.basic 1)])], 0, 0⟩,
          p.1 ≠ a') ∧
        ∀ a, CompiledExpression.baseRegistry ⟨⟨0⟩, some 0⟩ = some a →
          a' ≠ a) :=
  C9_derived_fresh_registry_shared_tree
    ⟨2, [(0, [("a", RVal.basic 1)])], 0, 0⟩ ⟨⟨0⟩, some 0⟩
    [("x", RVal.basic 2)] [("f", ⟨5, true⟩)] (by decide) (by decide)

/-! Claim C3. -/

/-- C3: on success, the derived CompiledExpression's base registry is
exactly the union of the receiver's base registry entries and the entries
derived from the supplied mapping (the processed values), and for every
key present in both the value derived from the mapping wins: a key found
among the processed values resolves to that value, and a key absent from
them resolves exactly as in the receiver's registry. -/
theorem C3_merged_registry_is_union (w : World) (c : CompiledExpression)
    (hold : keysNodup (heapRead w c.baseRegistry)) :
    (∀ vars values cv, processVars vars = .ok values →
      (CompiledExpression.WithVars w c vars).2 = .ok cv →
      (∀ k v, mapFind values k = some v →
        mapFind (heapRead (CompiledExpression.WithVars w c vars).1
          cv.baseRegistry) k = some v) ∧
      (∀ k, mapFind values k = none →
        mapFind (heapRead (CompiledExpression.WithVars w c vars).1
          cv.baseRegistry) k = mapFind (heapRead w c.baseRegistry) k)) ∧
    (∀ exts w1 values cx, processExts w exts = (w1, .ok values) →
      (CompiledExpression.WithExts w c exts).2 = .ok cx →
      (∀ k v, mapFind values k = some v →
        mapFind (heapRead (CompiledExpression.WithExts w c exts).1
          cx.baseRegistry) k = some v) ∧
      (∀ k, mapFind values k = none →
        mapFind (heapRead (CompiledExpression.WithExts w c exts).1
          cx.baseRegistry) k = mapFind (heapRead w c.baseRegistry) k)) := by
  constructor
  · intro vars values cv hpv hok
    unfold CompiledExpression.WithVars at hok ⊢
    rw [hpv] at hok ⊢
    cases hok
    show (∀ k v, _ → mapFind (heapRead (heapAlloc w _).1 (some (heapAlloc w _).2)) k = _) ∧ _
    rw [heapRead_heapAlloc_same]
    have hndv : keysNodup values := keysNodup_processVars hpv
    constructor
    · intro k v hf
      exact mapFind_copyInto_found values _ k v hndv hf
    · intro k hnone
      rw [mapFind_copyInto_none values _ k hnone,
        mapFind_copyInto_nil_eq _ k hold]
  · intro exts w1 values cx hpe hok
    unfold CompiledExpression.WithExts at hok ⊢
    rw [hpe] at hok ⊢
    cases hok
    have hst := processExts_stepsGC w exts
    rw [hpe] at hst
    show (∀ k v, _ → mapFind (heapRead (heapAlloc w1 _).1 (some (heapAlloc w1 _).2)) k = _) ∧ _
    rw [heapRead_heapAlloc_same]
    have hndv : keysNodup values := keysNodup_processExts hpe
    have hro : heapRead w1 c.baseRegistry = heapRead w c.baseRegistry :=
      heapRead_eq_of_stepsGC hst c.baseRegistry
    rw [hro]
    constructor
    · intro k v hf
      exact mapFind_copyInto_found values _ k v hndv hf
    · intro k hnone
      rw [mapFind_copyInto_none values _ k hnone,
        mapFind_copyInto_nil_eq _ k hold]

/-- Witness for C3 at a concrete instance. -/
theorem C3_witness :
    (∀ vars values cv, processVars vars = .ok values →
      (CompiledExpression.WithVars
        ⟨2, [(0, [("a", RVal.basic 1)])], 0, 0⟩ ⟨⟨0⟩, some 0⟩ vars).2 =
        .ok cv →
      (∀ k v, mapFind values k = some v →
        mapFind (heapRead (CompiledExpression.WithVars
          ⟨2, [(0, [("a", RVal.basic 1)])], 0, 0⟩ ⟨⟨0⟩, some 0⟩ vars).1
          cv.baseRegistry) k = some v) ∧
      (∀ k, mapFind values k = none →
        mapFind (heapRead (CompiledExpression.WithVars
          ⟨2, [(0, [("a", RVal.basic 1)])], 0, 0⟩ ⟨⟨0⟩, some 0⟩ vars).1
          cv.baseRegistry) k =
          mapFind (heapRead ⟨2, [(0, [("a", RVal.basic 1)])], 0, 0⟩
            (some 0)) k)) ∧
    (∀ exts w1 values cx,
      processExts ⟨2, [(0, [("a", RVal.basic 1)])], 0, 0⟩ exts =
        (w1, .ok values) →
      (CompiledExpression.WithExts
        ⟨2, [(0, [("a", RVal.basic 1)])], 0, 0⟩ ⟨⟨0⟩, some 0⟩ exts).2 =
        .ok cx →
      (∀ k v, mapFind values k = some v →
        mapFind (heapRead (CompiledExpression.WithExts
          ⟨2, [(0, [("a", RVal.basic 1)])], 0, 0⟩ ⟨⟨0⟩, some 0⟩ exts).1
          cx.baseRegistry) k = some v) ∧
      (∀ k, mapFind values k = none →
        mapFind (heapRead (CompiledExpression.WithExts
          ⟨2, [(0, [("a", RVal.basic 1)])], 0, 0⟩ ⟨⟨0⟩, some 0⟩ exts).1
          cx.baseRegistry) k =
          mapFind (heapRead ⟨2, [(0, [("a", RVal.basic 1)])], 0, 0⟩
            (some 0)) k)) :=
  C3_merged_registry_is_union ⟨2, [(0, [("a", RVal.basic 1)])], 0, 0⟩
    ⟨⟨0⟩, some 0⟩ (by decide)

/-! Claim C7. -/

/-- C7: when processing of a vars/exts mapping fails (an illegal
identifier name, or for extensions an unsupported signature), the world is
returned exactly as it was: a failing WithVars/WithExts returns an error
and no expression with the receiver untouched, and a failing
RegisterVars/RegisterExts returns an error with the evaluator's override
registry and everything else unchanged, no partial subset added. -/
theorem C7_failed_registration_no_mutation (w : World)
    (c : CompiledExpression) (e : Evaluator)
    (vars : List (String × RVal)) (exts : List (String × Extension))
    (hbv : ∃ kv ∈ vars, legalName kv.1 = false)
    (hbx : ∃ kv ∈ exts, legalName kv.1 = false ∨ kv.2.okSig = false) :
    ((CompiledExpression.WithVars w c vars).1 = w ∧
      ∃ err, (CompiledExpression.WithVars w c vars).2 = .error err) ∧
    ((CompiledExpression.WithExts w c exts).1 = w ∧
      ∃ err, (CompiledExpression.WithExts w c exts).2 = .error err) ∧
    ((Evaluator.RegisterVars w e vars).1 = w ∧
      ∃ err, (Evaluator.RegisterVars w e vars).2 = some err) ∧
    ((Evaluator.RegisterExts w e exts).1 = w ∧
      ∃ err, (Evaluator.RegisterExts w e exts).2 = some err) := by
  obtain ⟨errv, hev⟩ := validateVars_bad hbv
  obtain ⟨errx, hex⟩ := validateExts_bad hbx
  have hpv : processVars vars = .error errv := by
    unfold processVars
    rw [hev]
  have hpe : processExts w exts = (w, .error errx) := by
    unfold processExts
    rw [hex]
  refine ⟨⟨?_, errv, ?_⟩, ⟨?_, errx, ?_⟩, ⟨?_, errv, ?_⟩, ⟨?_, errx, ?_⟩⟩
  · unfold CompiledExpression.WithVars
    rw [hpv]
  · unfold CompiledExpression.WithVars
    rw [hpv]
  · unfold CompiledExpression.WithExts
    rw [hpe]
  · unfold CompiledExpression.WithExts
    rw [hpe]
  · unfold Evaluator.RegisterVars
    rw [hpv]
  · unfold Evaluator.RegisterVars
    rw [hpv]
  · unfold Evaluator.RegisterExts
    rw [hpe]
  · unfold Evaluator.RegisterExts
    rw [hpe]

/-- Witness for C7 at a concrete instance: the key with a space in its
name is illegal, and the second extension's signature is unsupported. -/
theorem C7_witness :
    ((CompiledExpression.WithVars w0 ce0 [("bad name", RVal.basic 1)]).1 =
        w0 ∧
      ∃ err, (CompiledExpression.WithVars w0 ce0
        [("bad name", RVal.basic 1)]).2 = .error err) ∧
    ((CompiledExpression.WithExts w0 ce0 [("g", ⟨3, false⟩)]).1 = w0 ∧
      ∃ err, (CompiledExpression.WithExts w0 ce0
        [("g", ⟨3, false⟩)]).2 = .error err) ∧
    ((Evaluator.RegisterVars w0 ev0 [("bad name", RVal.basic 1)]).1 = w0 ∧
      ∃ err, (Evaluator.RegisterVars w0 ev0
        [("bad name", RVal.basic 1)]).2 = some err) ∧
    ((Evaluator.RegisterExts w0 ev0 [("g", ⟨3, false⟩)]).1 = w0 ∧
      ∃ err, (Evaluator.RegisterExts w0 ev0
        [("g", ⟨3, false⟩)]).2 = some err) :=
  C7_failed_registration_no_mutation w0 ce0 ev0
    [("bad name", RVal.basic 1)] [("g", ⟨3, false⟩)]
    ⟨("bad name", RVal.basic 1), by decide⟩
    ⟨("g", ⟨3, false⟩), by decide⟩

/-! Claim C1. -/

/-- C1: name resolution in the environment Eval constructs (newEnv)
follows low-to-high precedence root built-ins, then the compiled base
registry, then the evaluator's override registry: a name present in both
the base registry and the override registry resolves to the override
entry's value (bound as-is, or as a behaviorally identical fresh clone
when it is a stateful callable), and a name present in both the root
built-ins and the base registry but not overridden resolves to the base
registry entry's value. -/
theorem C1_binding_precedence (w : World) (baseSym : RegC) (e : Evaluator)
    (input : RVal) (k : String)
    (hndE : keysNodup (heapRead w (some e.extras)))
    (hndB : keysNodup (heapRead w e.expression.baseRegistry)) :
    (∀ v vb, mapFind (heapRead w (some e.extras)) k = some v →
      mapFind (heapRead w e.expression.baseRegistry) k = some vb →
      ∃ v', (e.newEnv w baseSym input).2.lookup k = some v' ∧
        bindsAs w.nextGC (e.newEnv w baseSym input).1.nextGC v v') ∧
    (∀ vb vr, mapFind (heapRead w (some e.extras)) k = none →
      mapFind (heapRead w e.expression.baseRegistry) k = some vb →
      mapFind baseSym k = some vr →
      ∃ v', (e.newEnv w baseSym input).2.lookup k = some v' ∧
        bindsAs w.nextGC (e.newEnv w baseSym input).1.nextGC vb v') := by
  constructor
  · intro v vb hfe hfb
    exact newEnv_lookup_extras w baseSym e input k v hndE hfe
  · intro vb vr hne hfb hfr
    exact newEnv_lookup_base w baseSym e input k vb hne hndB hfb

/-- Witness for C1: the override entry wins where both registries bind
greet, and the base entry wins over the root built-in where only they
bind greet. -/
theorem C1_witness :
    (∃ v', (Evaluator.newEnv ⟨2, [(0, [("greet", RVal.basic 1)]),
        (1, [("greet", RVal.basic 2)])], 0, 0⟩
        [("greet", RVal.basic 0)] ⟨⟨⟨0⟩, some 0⟩, 1⟩ RVal.nilPtr).2.lookup
        "greet" = some v' ∧
      bindsAs 0 (Evaluator.newEnv ⟨2, [(0, [("greet", RVal.basic 1)]),
        (1, [("greet", RVal.basic 2)])], 0, 0⟩
        [("greet", RVal.basic 0)] ⟨⟨⟨0⟩, some 0⟩, 1⟩
        RVal.nilPtr).1.nextGC (RVal.basic 2) v') ∧
    (∃ v', (Evaluator.newEnv ⟨2, [(0, [("greet", RVal.basic 1)]),
        (1, [])], 0, 0⟩
        [("greet", RVal.basic 0)] ⟨⟨⟨0⟩, some 0⟩, 1⟩ RVal.nilPtr).2.lookup
        "greet" = some v' ∧
      bindsAs 0 (Evaluator.newEnv ⟨2, [(0, [("greet", RVal.basic 1)]),
        (1, [])], 0, 0⟩
        [("greet", RVal.basic 0)] ⟨⟨⟨0⟩, some 0⟩, 1⟩
        RVal.nilPtr).1.nextGC (RVal.basic 1) v') :=
  ⟨(C1_binding_precedence ⟨2, [(0, [("greet", RVal.basic 1)]),
      (1, [("greet", RVal.basic 2)])], 0, 0⟩ [("greet", RVal.basic 0)]
      ⟨⟨⟨0⟩, some 0⟩, 1⟩ RVal.nilPtr "greet" (by decide) (by decide)).1
    (RVal.basic 2) (RVal.basic 1) (by decide) (by decide),
   (C1_binding_precedence ⟨2, [(0, [("greet", RVal.basic 1)]),
      (1, [])], 0, 0⟩ [("greet", RVal.basic 0)]
      ⟨⟨⟨0⟩, some 0⟩, 1⟩ RVal.nilPtr "greet" (by decide) (by decide)).2
    (RVal.basic 1) (RVal.basic 0) (by decide) (by decide) (by decide)⟩

/-! Claim C5. -/

/-- A name is bound by none of the evaluator override registry, the
compiled base registry, and the root built-in symbols. -/
def notShadowed (w : World) (baseSym : RegC) (e : Evaluator) (k : String) :
    Prop :=
  mapFind (heapRead w (some e.extras)) k = none ∧
  mapFind (heapRead w e.expression.baseRegistry) k = none ∧
  mapFind baseSym k = none

instance (w : World) (baseSym : RegC) (e : Evaluator) (k : String) :
    Decidable (notShadowed w baseSym e k) := by
  unfold notShadowed; infer_instance

/-- C5: the time-sensitive built-ins now and millis are bound, once, at
the start of each evaluation, to callables carrying the snapshot of the
clock at that moment; invoking the bound callable at any two later clock
readings within the evaluation returns that same snapshot, and a second
evaluation started at another world binds that world's own clock reading,
so the snapshots of distinct evaluations track their own start times. -/
theorem C5_time_snapshot_per_evaluation (w w2 : World) (baseSym : RegC)
    (e e2 : Evaluator) (input input2 : RVal)
    (h1 : notShadowed w baseSym e "now")
    (h2 : notShadowed w baseSym e "millis")
    (h3 : notShadowed w2 baseSym e2 "now") :
    (∃ a, (e.newEnv w baseSym input).2.lookup "now" =
      some (RVal.gcall a timeNowBehavior w.clock)) ∧
    (∃ a, (e.newEnv w baseSym input).2.lookup "millis" =
      some (RVal.gcall a timeMillisBehavior w.clock)) ∧
    (∀ v t1 t2, (e.newEnv w baseSym input).2.lookup "now" = some v →
      invokeTimeCallable v t1 = invokeTimeCallable v t2 ∧
      invokeTimeCallable v t1 = some w.clock) ∧
    (∃ a2, (e2.newEnv w2 baseSym input2).2.lookup "now" =
      some (RVal.gcall a2 timeNowBehavior w2.clock)) ∧
    (w.clock ≠ w2.clock →
      ∀ v1 v2 t, (e.newEnv w baseSym input).2.lookup "now" = some v1 →
        (e2.newEnv w2 baseSym input2).2.lookup "now" = some v2 →
        invokeTimeCallable v1 t ≠ invokeTimeCallable v2 t) := by
  obtain ⟨a1, _, hl1⟩ := newEnv_lookup_time w baseSym e input "now"
    timeNowBehavior (Or.inl ⟨rfl, rfl⟩) h1.1 h1.2.1 h1.2.2
  obtain ⟨am, _, hlm⟩ := newEnv_lookup_time w baseSym e input "millis"
    timeMillisBehavior (Or.inr ⟨rfl, rfl⟩) h2.1 h2.2.1 h2.2.2
  obtain ⟨a2, _, hl2⟩ := newEnv_lookup_time w2 baseSym e2 input2 "now"
    timeNowBehavior (Or.inl ⟨rfl, rfl⟩) h3.1 h3.2.1 h3.2.2
  refine ⟨⟨a1, hl1⟩, ⟨am, hlm⟩, ?_, ⟨a2, hl2⟩, ?_⟩
  · intro v t1 t2 hv
    rw [hl1] at hv
    cases hv
    simp [invokeTimeCallable, timeNowBehavior]
  · intro hcl v1 v2 t hv1 hv2
    rw [hl1] at hv1
    rw [hl2] at hv2
    cases hv1
    cases hv2
    simpa [invokeTimeCallable, timeNowBehavior] using hcl

/-- Witness for C5 at a concrete instance: two evaluations whose worlds
read different clocks. -/
theorem C5_witness :
    (∃ a, (Evaluator.newEnv ⟨1, [(0, [])], 0, 3⟩ [] ⟨ce0, 0⟩
      RVal.nilPtr).2.lookup "now" =
      some (RVal.gcall a timeNowBehavior 3)) ∧
    (∃ a, (Evaluator.newEnv ⟨1, [(0, [])], 0, 3⟩ [] ⟨ce0, 0⟩
      RVal.nilPtr).2.lookup "millis" =
      some (RVal.gcall a timeMillisBehavior 3)) ∧
    (∀ v t1 t2, (Evaluator.newEnv ⟨1, [(0, [])], 0, 3⟩ [] ⟨ce0, 0⟩
        RVal.nilPtr).2.lookup "now" = some v →
      invokeTimeCallable v t1 = invokeTimeCallable v t2 ∧
      invokeTimeCallable v t1 = some 3) ∧
    (∃ a2, (Evaluator.newEnv ⟨1, [(0, [])], 0, 7⟩ [] ⟨ce0, 0⟩
      RVal.nilPtr).2.lookup "now" =
      some (RVal.gcall a2 timeNowBehavior 7)) ∧
    ((3 : Nat) ≠ 7 →
      ∀ v1 v2 t, (Evaluator.newEnv ⟨1, [(0, [])], 0, 3⟩ [] ⟨ce0, 0⟩
          RVal.nilPtr).2.lookup "now" = some v1 →
        (Evaluator.newEnv ⟨1, [(0, [])], 0, 7⟩ [] ⟨ce0, 0⟩
          RVal.nilPtr).2.lookup "now" = some v2 →
        invokeTimeCallable v1 t ≠ invokeTimeCallable v2 t) :=
  C5_time_snapshot_per_evaluation ⟨1, [(0, [])], 0, 3⟩ ⟨1, [(0, [])], 0, 7⟩
    [] ⟨ce0, 0⟩ ⟨ce0, 0⟩ RVal.nilPtr RVal.nilPtr
    (by decide) (by decide) (by decide)

/-! Claim C6. -/

/-- C6: every stateful callable (goCallable) a winning registry entry
contributes to an evaluation's environment — whether it comes from the
root built-ins, the compiled base registry, or the evaluator's override
registry — is bound as a freshly cloned instance (same behavior and
state, a new address never equal to the source's); stateless callables
and plain values from each of those three layers are bound by shared
reference (the root layer's plain values resolve through the parent
chain, away from the names the evaluation itself binds: the dollar input
and the time callables); and two evaluations whose allocations do not
overlap never share a bound stateful instance. -/
theorem C6_stateful_callables_freshly_cloned (w : World) (baseSym : RegC)
    (e : Evaluator) (input : RVal)
    (hndE : keysNodup (heapRead w (some e.extras)))
    (hndB : keysNodup (heapRead w e.expression.baseRegistry))
    (hndR : keysNodup baseSym)
    (hgE : gcBound w.nextGC (heapRead w (some e.extras)))
    (hgB : gcBound w.nextGC (heapRead w e.expression.baseRegistry))
    (hgR : gcBound w.nextGC baseSym) :
    (∀ k a b s,
      mapFind (heapRead w (some e.extras)) k = some (RVal.gcall a b s) →
      ∃ a', (e.newEnv w baseSym input).2.lookup k =
        some (RVal.gcall a' b s) ∧ a' ≠ a ∧ w.nextGC ≤ a') ∧
    (∀ k a b s, mapFind (heapRead w (some e.extras)) k = none →
      mapFind (heapRead w e.expression.baseRegistry) k =
        some (RVal.gcall a b s) →
      ∃ a', (e.newEnv w baseSym input).2.lookup k =
        some (RVal.gcall a' b s) ∧ a' ≠ a ∧ w.nextGC ≤ a') ∧
    (∀ k a b s, mapFind (heapRead w (some e.extras)) k = none →
      mapFind (heapRead w e.expression.baseRegistry) k = none →
      mapFind baseSym k = some (RVal.gcall a b s) →
      ∃ a', (e.newEnv w baseSym input).2.lookup k =
        some (RVal.gcall a' b s) ∧ a' ≠ a ∧ w.nextGC ≤ a') ∧
    (∀ k v, mapFind (heapRead w (some e.extras)) k = some v →
      rvalIsGcall v = false →
      (e.newEnv w baseSym input).2.lookup k = some v) ∧
    (∀ k v, mapFind (heapRead w (some e.extras)) k = none →
      mapFind (heapRead w e.expression.baseRegistry) k = some v →
      rvalIsGcall v = false →
      (e.newEnv w baseSym input).2.lookup k = some v) ∧
    (∀ k v, mapFind (heapRead w (some e.extras)) k = none →
      mapFind (heapRead w e.expression.baseRegistry) k = none →
      mapFind baseSym k = some v → rvalIsGcall v = false →
      ¬ k = "$" → ¬ k = "now" → ¬ k = "millis" →
      (e.newEnv w baseSym input).2.lookup k = some v) ∧
    (∀ (w2 : World) (e2 : Evaluator) (input2 : RVal) (baseSym2 : RegC)
        (k k2 : String) (a b s a2 b2 s2 : Nat),
      keysNodup (heapRead w2 (some e2.extras)) →
      (e.newEnv w baseSym input).1.nextGC ≤ w2.nextGC →
      mapFind (heapRead w (some e.extras)) k = some (RVal.gcall a b s) →
      mapFind (heapRead w2 (some e2.extras)) k2 =
        some (RVal.gcall a2 b2 s2) →
      ∃ a' a'', (e.newEnv w baseSym input).2.lookup k =
          some (RVal.gcall a' b s) ∧
        (e2.newEnv w2 baseSym2 input2).2.lookup k2 =
          some (RVal.gcall a'' b2 s2) ∧ a' ≠ a'') := by
  refine ⟨?_, ?_, ?_, ?_, ?_, ?_, ?_⟩
  · intro k a b s hf
    obtain ⟨v', hl, hb⟩ := newEnv_lookup_extras w baseSym e input k
      (RVal.gcall a b s) hndE hf
    obtain ⟨a', he, h1, h2⟩ := hb
    subst he
    have ha : a < w.nextGC := gcBound_find hgE hf
    exact ⟨a', hl, by omega, h1⟩
  · intro k a b s hne hf
    obtain ⟨v', hl, hb⟩ := newEnv_lookup_base w baseSym e input k
      (RVal.gcall a b s) hne hndB hf
    obtain ⟨a', he, h1, h2⟩ := hb
    subst he
    have ha : a < w.nextGC := gcBound_find hgB hf
    exact ⟨a', hl, by omega, h1⟩
  · intro k a b s hne hnb hf
    obtain ⟨a', hl, h1, h2⟩ := newEnv_lookup_root_gcall w baseSym e input
      k a b s hne hnb hndR hf
    have ha : a < w.nextGC := gcBound_find hgR hf
    exact ⟨a', hl, by omega, h1⟩
  · intro k v hf hng
    obtain ⟨v', hl, hb⟩ := newEnv_lookup_extras w baseSym e input k v
      hndE hf
    cases v with
    | gcall a b s => simp [rvalIsGcall] at hng
    | invalid => rw [hl, hb]
    | noInterface t => rw [hl, hb]
    | nilPtr => rw [hl, hb]
    | basic t => rw [hl, hb]
  · intro k v hne hf hng
    obtain ⟨v', hl, hb⟩ := newEnv_lookup_base w baseSym e input k v
      hne hndB hf
    cases v with
    | gcall a b s => simp [rvalIsGcall] at hng
    | invalid => rw [hl, hb]
    | noInterface t => rw [hl, hb]
    | nilPtr => rw [hl, hb]
    | basic t => rw [hl, hb]
  · intro k v hne hnb hf hng hk1 hk2 hk3
    exact newEnv_lookup_root_plain w baseSym e input k v hne hnb hndR hf
      hng hk1 hk2 hk3
  · intro w2 e2 input2 baseSym2 k k2 a b s a2 b2 s2 hndE2 hseq hf1 hf2
    obtain ⟨v', hl1, hb1⟩ := newEnv_lookup_extras w baseSym e input k
      (RVal.gcall a b s) hndE hf1
    obtain ⟨a', he1, hlo1, hhi1⟩ := hb1
    subst he1
    obtain ⟨v'', hl2, hb2⟩ := newEnv_lookup_extras w2 baseSym2 e2 input2
      k2 (RVal.gcall a2 b2 s2) hndE2 hf2
    obtain ⟨a'', he2, hlo2, hhi2⟩ := hb2
    subst he2
    exact ⟨a', a'', hl1, hl2, by omega⟩

/-- Witness for C6 at a concrete instance with stateful callables and
plain values in all three registry layers. -/
theorem C6_witness :
    (∀ k a b s,
      mapFind (heapRead ⟨2, [(0, [("f", RVal.gcall 0 10 0),
          ("p", RVal.basic 3)]), (1, [("g", RVal.gcall 1 11 0),
          ("h", RVal.basic 4)])], 2, 0⟩ (some 1)) k =
        some (RVal.gcall a b s) →
      ∃ a', (Evaluator.newEnv ⟨2, [(0, [("f", RVal.gcall 0 10 0),
          ("p", RVal.basic 3)]), (1, [("g", RVal.gcall 1 11 0),
          ("h", RVal.basic 4)])], 2, 0⟩
          [("root", RVal.gcall 0 12 0), ("pi", RVal.basic 9)]
          ⟨⟨⟨0⟩, some 0⟩, 1⟩ RVal.nilPtr).2.lookup k =
        some (RVal.gcall a' b s) ∧ a' ≠ a ∧ 2 ≤ a') ∧
    (∀ k a b s,
      mapFind (heapRead ⟨2, [(0, [("f", RVal.gcall 0 10 0),
          ("p", RVal.basic 3)]), (1, [("g", RVal.gcall 1 11 0),
          ("h", RVal.basic 4)])], 2, 0⟩ (some 1)) k = none →
      mapFind (heapRead ⟨2, [(0, [("f", RVal.gcall 0 10 0),
          ("p", RVal.basic 3)]), (1, [("g", RVal.gcall 1 11 0),
          ("h", RVal.basic 4)])], 2, 0⟩
        (CompiledExpression.baseRegistry ⟨⟨0⟩, some 0⟩)) k =
        some (RVal.gcall a b s) →
      ∃ a', (Evaluator.newEnv ⟨2, [(0, [("f", RVal.gcall 0 10 0),
          ("p", RVal.basic 3)]), (1, [("g", RVal.gcall 1 11 0),
          ("h", RVal.basic 4)])], 2, 0⟩
          [("root", RVal.gcall 0 12 0), ("pi", RVal.basic 9)]
          ⟨⟨⟨0⟩, some 0⟩, 1⟩ RVal.nilPtr).2.lookup k =
        some (RVal.gcall a' b s) ∧ a' ≠ a ∧ 2 ≤ a') ∧
    (∀ k a b s,
      mapFind (heapRead ⟨2, [(0, [("f", RVal.gcall 0 10 0),
          ("p", RVal.basic 3)]), (1, [("g", RVal.gcall 1 11 0),
          ("h", RVal.basic 4)])], 2, 0⟩ (some 1)) k = none →
      mapFind (heapRead ⟨2, [(0, [("f", RVal.gcall 0 10 0),
          ("p", RVal.basic 3)]), (1, [("g", RVal.gcall 1 11 0),
          ("h", RVal.basic 4)])], 2, 0⟩
        (CompiledExpression.baseRegistry ⟨⟨0⟩, some 0⟩)) k = none →
      mapFind [("root", RVal.gcall 0 12 0), ("pi", RVal.basic 9)] k =
        some (RVal.gcall a b s) →
      ∃ a', (Evaluator.newEnv ⟨2, [(0, [("f", RVal.gcall 0 10 0),
          ("p", RVal.basic 3)]), (1, [("g", RVal.gcall 1 11 0),
          ("h", RVal.basic 4)])], 2, 0⟩
          [("root", RVal.gcall 0 12 0), ("pi", RVal.basic 9)]
          ⟨⟨⟨0⟩, some 0⟩, 1⟩ RVal.nilPtr).2.lookup k =
        some (RVal.gcall a' b s) ∧ a' ≠ a ∧ 2 ≤ a') ∧
    (∀ k v, mapFind (heapRead ⟨2, [(0, [("f", RVal.gcall 0 10 0),
          ("p", RVal.basic 3)]), (1, [("g", RVal.gcall 1 11 0),
          ("h", RVal.basic 4)])], 2, 0⟩ (some 1)) k = some v →
      rvalIsGcall v = false →
      (Evaluator.newEnv ⟨2, [(0, [("f", RVal.gcall 0 10 0),
          ("p", RVal.basic 3)]), (1, [("g", RVal.gcall 1 11 0),
          ("h", RVal.basic 4)])], 2, 0⟩
          [("root", RVal.gcall 0 12 0), ("pi", RVal.basic 9)]
          ⟨⟨⟨0⟩, some 0⟩, 1⟩ RVal.nilPtr).2.lookup k = some v) ∧
    (∀ k v, mapFind (heapRead ⟨2, [(0, [("f", RVal.gcall 0 10 0),
          ("p", RVal.basic 3)]), (1, [("g", RVal.gcall 1 11 0),
          ("h", RVal.basic 4)])], 2, 0⟩ (some 1)) k = none →
      mapFind (heapRead ⟨2, [(0, [("f", RVal.gcall 0 10 0),
          ("p", RVal.basic 3)]), (1, [("g", RVal.gcall 1 11 0),
          ("h", RVal.basic 4)])], 2, 0⟩
        (CompiledExpression.baseRegistry ⟨⟨0⟩, some 0⟩)) k = some v →
      rvalIsGcall v = false →
      (Evaluator.newEnv ⟨2, [(0, [("f", RVal.gcall 0 10 0),
          ("p", RVal.basic 3)]), (1, [("g", RVal.gcall 1 11 0),
          ("h", RVal.basic 4)])], 2, 0⟩
          [("root", RVal.gcall 0 12 0), ("pi", RVal.basic 9)]
          ⟨⟨⟨0⟩, some 0⟩, 1⟩ RVal.nilPtr).2.lookup k = some v) ∧
    (∀ k v, mapFind (heapRead ⟨2, [(0, [("f", RVal.gcall 0 10 0),
          ("p", RVal.basic 3)]), (1, [("g", RVal.gcall 1 11 0),
          ("h", RVal.basic 4)])], 2, 0⟩ (some 1)) k = none →
      mapFind (heapRead ⟨2, [(0, [("f", RVal.gcall 0 10 0),
          ("p", RVal.basic 3)]), (1, [("g", RVal.gcall 1 11 0),
          ("h", RVal.basic 4)])], 2, 0⟩
        (CompiledExpression.baseRegistry ⟨⟨0⟩, some 0⟩)) k = none →
      mapFind [("root", RVal.gcall 0 12 0), ("pi", RVal.basic 9)] k =
        some v →
      rvalIsGcall v = false →
      ¬ k = "$" → ¬ k = "now" → ¬ k = "millis" →
      (Evaluator.newEnv ⟨2, [(0, [("f", RVal.gcall 0 10 0),
          ("p", RVal.basic 3)]), (1, [("g", RVal.gcall 1 11 0),
          ("h", RVal.basic 4)])], 2, 0⟩
          [("root", RVal.gcall 0 12 0), ("pi", RVal.basic 9)]
          ⟨⟨⟨0⟩, some 0⟩, 1⟩ RVal.nilPtr).2.lookup k = some v) ∧
    (∀ (w2 : World) (e2 : Evaluator) (input2 : RVal) (baseSym2 : RegC)
        (k k2 : String) (a b s a2 b2 s2 : Nat),
      keysNodup (heapRead w2 (some e2.extras)) →
      (Evaluator.newEnv ⟨2, [(0, [("f", RVal.gcall 0 10 0),
          ("p", RVal.basic 3)]), (1, [("g", RVal.gcall 1 11 0),
          ("h", RVal.basic 4)])], 2, 0⟩
          [("root", RVal.gcall 0 12 0), ("pi", RVal.basic 9)]
          ⟨⟨⟨0⟩, some 0⟩, 1⟩ RVal.nilPtr).1.nextGC ≤ w2.nextGC →
      mapFind (heapRead ⟨2, [(0, [("f", RVal.gcall 0 10 0),
          ("p", RVal.basic 3)]), (1, [("g", RVal.gcall 1 11 0),
          ("h", RVal.basic 4)])], 2, 0⟩ (some 1)) k =
        some (RVal.gcall a b s) →
      mapFind (heapRead w2 (some e2.extras)) k2 =
        some (RVal.gcall a2 b2 s2) →
      ∃ a' a'', (Evaluator.newEnv ⟨2, [(0, [("f", RVal.gcall 0 10 0),
          ("p", RVal.basic 3)]), (1, [("g", RVal.gcall 1 11 0),
          ("h", RVal.basic 4)])], 2, 0⟩
          [("root", RVal.gcall 0 12 0), ("pi", RVal.basic 9)]
          ⟨⟨⟨0⟩, some 0⟩, 1⟩ RVal.nilPtr).2.lookup k =
          some (RVal.gcall a' b s) ∧
        (e2.newEnv w2 baseSym2 input2).2.lookup k2 =
          some (RVal.gcall a'' b2 s2) ∧ a' ≠ a'') :=
  C6_stateful_callables_freshly_cloned
    ⟨2, [(0, [("f", RVal.gcall 0 10 0), ("p", RVal.basic 3)]),
      (1, [("g", RVal.gcall 1 11 0), ("h", RVal.basic 4)])], 2, 0⟩
    [("root", RVal.gcall 0 12 0), ("pi", RVal.basic 9)]
    ⟨⟨⟨0⟩, some 0⟩, 1⟩ RVal.nilPtr
    (by decide) (by decide) (by decide) (by decide) (by decide) (by decide)

end JsonataGo
